import Mathlib

/-!
Shallow embedding of the automated report ingestion pipeline of
`system_reports/` (files `ingestion.py` and `models.py`).

Text is modelled as `List Char` / `String`.  Character classes mirror the
Python `re` module's Unicode semantics on the code points the pipeline's
own character filter can let through: Basic Latin, Latin-1 Supplement and
Latin Extended-A (the cleaner `clean_text` replaces every character that is
not `\w`, `\s`, `\d` or in U+00C0–U+017F with a space, so no later stage
ever sees anything outside that range plus ASCII).  Python's `str.lower`
is the full Unicode case mapping: below U+0180 every code point lowers to
a single code point except U+0130 (İ), whose full lowercase is the
two-character sequence "i" + combining dot above (U+0069 U+0307, per
`SpecialCasing.txt`); `str.lower` call sites are modelled with that
expansion (`pyLowerChars`).  `re.IGNORECASE`, by contrast, compares code
points under the *simple* (single-code-point) lowercase mapping of
`UnicodeData.txt`, which sends U+0130 to U+0069; its call sites use the
per-character `pyLower`.

Numeric scores use `ℚ`; timestamps are `ℤ` seconds.
-/

set_option maxRecDepth 8192

namespace VigilanceHub

/-- Python `\s` on code points (also `str.split()` whitespace): ASCII
whitespace, the C0 separators FS/GS/RS/US, NEL, NBSP and the Unicode
space range. -/
def pySpaceNat (n : Nat) : Bool :=
  n = 32 || (9 ≤ n && n ≤ 13) || (28 ≤ n && n ≤ 31) ||
  n = 133 || n = 160 || n = 0x1680 ||
  (0x2000 ≤ n && n ≤ 0x200A) || n = 0x2028 || n = 0x2029 ||
  n = 0x202F || n = 0x205F || n = 0x3000

/-- Python `\w` on code points below U+0180: ASCII alphanumerics and
underscore, the alphanumeric Latin-1 signs (ª ² ³ µ ¹ º ¼ ½ ¾) and the
Latin-1/Extended-A letters (U+00C0–U+017F minus × and ÷). -/
def pyWordNat (n : Nat) : Bool :=
  (48 ≤ n && n ≤ 57) || (65 ≤ n && n ≤ 90) ||
  (97 ≤ n && n ≤ 122) || n = 95 ||
  n = 0xAA || n = 0xB2 || n = 0xB3 || n = 0xB5 ||
  n = 0xB9 || n = 0xBA || (0xBC ≤ n && n ≤ 0xBE) ||
  (0xC0 ≤ n && n ≤ 0x17F && !(n = 0xD7) && !(n = 0xF7))

/-- The code points the class substitution in `clean_text`,
`re.sub(r'[^\w\s\dÀ-ſ]', ' ', text)`, keeps unchanged. -/
def keptNat (n : Nat) : Bool :=
  pyWordNat n || pySpaceNat n || (0xC0 ≤ n && n ≤ 0x17F)

def isPySpace (c : Char) : Bool := pySpaceNat c.toNat

def isWordChar (c : Char) : Bool := pyWordNat c.toNat

def keptChar (c : Char) : Bool := keptNat c.toNat

/-- Python `str.lower` on code points, for the range the pipeline can see
(identity above U+017F; see the module comment for U+0130). -/
def pyLowerNat (n : Nat) : Nat :=
  if 65 ≤ n ∧ n ≤ 90 then n + 32
  else if 0xC0 ≤ n ∧ n ≤ 0xDE ∧ n ≠ 0xD7 then n + 32
  else if n = 0x130 then 105
  else if 0x100 ≤ n ∧ n ≤ 0x137 ∧ n % 2 = 0 then n + 1
  else if 0x139 ≤ n ∧ n ≤ 0x148 ∧ n % 2 = 1 then n + 1
  else if 0x14A ≤ n ∧ n ≤ 0x177 ∧ n % 2 = 0 then n + 1
  else if n = 0x178 then 0xFF
  else if 0x179 ≤ n ∧ n ≤ 0x17E ∧ n % 2 = 1 then n + 1
  else n

/-- The simple (single-code-point) lowercase mapping, per character: what
`re.IGNORECASE` compares under.  Note `pyLowerNat 0x130 = 0x69`: that is
the `UnicodeData.txt` simple lowercase of İ. -/
def pyLower (c : Char) : Char := Char.ofNat (pyLowerNat c.toNat)

/-- Python `str.lower`, per character of the input: the full Unicode case
mapping.  Below U+0180 it agrees with the simple mapping on every code
point except U+0130 (İ), whose full lowercase is the two-character
sequence "i" + combining dot above (U+0069 U+0307, `SpecialCasing.txt`). -/
def pyLowerChars (c : Char) : List Char :=
  if c.toNat = 0x130 then ['i', Char.ofNat 0x307] else [pyLower c]

theorem toNat_ofNat_valid (n : Nat) (h : n.isValidChar) : (Char.ofNat n).toNat = n := by
  simp only [Char.ofNat, dif_pos h, Char.ofNatAux, Char.toNat, Nat.toUInt32]
  rfl

theorem pyLowerNat_of_ge (n : Nat) (h : 0x180 ≤ n) : pyLowerNat n = n := by
  unfold pyLowerNat
  split_ifs <;> omega

theorem pyLowerNat_lt_of_lt : ∀ n < 0x180, pyLowerNat n < 0x180 := by decide

theorem pyLowerNat_idem (n : Nat) : pyLowerNat (pyLowerNat n) = pyLowerNat n := by
  by_cases h : n < 0x180
  · exact (by decide : ∀ m < 0x180, pyLowerNat (pyLowerNat m) = pyLowerNat m) n h
  · rw [pyLowerNat_of_ge n (le_of_not_lt h), pyLowerNat_of_ge n (le_of_not_lt h)]

theorem toNat_pyLower (c : Char) : (pyLower c).toNat = pyLowerNat c.toNat := by
  unfold pyLower
  by_cases h : c.toNat < 0x180
  · exact toNat_ofNat_valid _ (Or.inl (by have := pyLowerNat_lt_of_lt c.toNat h; omega))
  · rw [pyLowerNat_of_ge _ (le_of_not_lt h)]
    exact toNat_ofNat_valid _ (by cases c with | mk v hv => exact hv)

theorem char_eq_of_toNat_eq {a b : Char} (h : a.toNat = b.toNat) : a = b := by
  cases a with | mk va ha => cases b with | mk vb hb =>
  simp only [Char.toNat] at h
  have : va = vb := UInt32.toNat.inj h
  subst this
  rfl

theorem pyLower_idem (c : Char) : pyLower (pyLower c) = pyLower c := by
  apply char_eq_of_toNat_eq
  rw [toNat_pyLower, toNat_pyLower, pyLowerNat_idem]

theorem pySpaceNat_pyLowerNat (n : Nat) : pySpaceNat (pyLowerNat n) = pySpaceNat n := by
  by_cases h : n < 0x180
  · exact (by decide : ∀ m < 0x180, pySpaceNat (pyLowerNat m) = pySpaceNat m) n h
  · rw [pyLowerNat_of_ge n (le_of_not_lt h)]

theorem keptNat_pyLowerNat (n : Nat) (h : keptNat n = true) :
    keptNat (pyLowerNat n) = true := by
  by_cases hlt : n < 0x180
  · exact (by decide :
      ∀ m < 0x180, keptNat m = true → keptNat (pyLowerNat m) = true) n hlt h
  · rw [pyLowerNat_of_ge n (le_of_not_lt hlt)]
    exact h

theorem isPySpace_pyLower (c : Char) : isPySpace (pyLower c) = isPySpace c := by
  simp only [isPySpace, toNat_pyLower, pySpaceNat_pyLowerNat]

theorem keptChar_pyLower (c : Char) (h : keptChar c = true) :
    keptChar (pyLower c) = true := by
  simp only [keptChar, toNat_pyLower]
  exact keptNat_pyLowerNat _ h

theorem pyLowerChars_ne_nil (c : Char) : pyLowerChars c ≠ [] := by
  unfold pyLowerChars
  split
  · exact List.cons_ne_nil _ _
  · exact List.cons_ne_nil _ _

/-- A character fixed by the simple lowercase mapping lowers to itself
under the full mapping as well (in particular it is not İ). -/
theorem pyLowerChars_fixed (c : Char) (h : pyLower c = c) : pyLowerChars c = [c] := by
  unfold pyLowerChars
  split
  next h130 =>
    exfalso
    have ht : (pyLower c).toNat = pyLowerNat c.toNat := toNat_pyLower c
    rw [h, h130] at ht
    exact absurd ht (by decide)
  next _ =>
    rw [h]

theorem mem_pyLowerChars_lower_fixed (c d : Char) (h : d ∈ pyLowerChars c) :
    pyLower d = d := by
  unfold pyLowerChars at h
  split at h
  · rcases List.mem_cons.mp h with rfl | h'
    · decide
    · rw [List.mem_singleton.mp h']
      decide
  · rw [List.mem_singleton.mp h]
    exact pyLower_idem c

theorem mem_pyLowerChars_space (c d : Char) (h : d ∈ pyLowerChars c) :
    isPySpace d = isPySpace c := by
  unfold pyLowerChars at h
  split at h
  next h130 =>
    have hc : isPySpace c = false := by
      simp only [isPySpace, h130]
      decide
    rcases List.mem_cons.mp h with rfl | h'
    · rw [hc]; decide
    · rw [List.mem_singleton.mp h', hc]; decide
  next _ =>
    rw [List.mem_singleton.mp h]
    exact isPySpace_pyLower c

end VigilanceHub

namespace VigilanceHub

/-! ### `NLPProcessor.clean_text` (ingestion.py lines 38-46)

`re.sub(r'http\S+|@\w+|#\w+', '', text)`, then
`re.sub(r'[^\w\s\dÀ-ſ]', ' ', text)`, then
`' '.join(text.split())`, then `.lower()`. -/

/-- One attempt of the removal pattern `http\S+|@\w+|#\w+` at the current
position: `some rest` yields the text after the greedy leftmost match
(`\S+` and `\w+` consume the maximal run), `none` means no alternative
matches here. -/
def patMatch (l : List Char) : Option (List Char) :=
  match l with
  | 'h' :: 't' :: 't' :: 'p' :: d :: rest =>
      if isPySpace d then none
      else some ((d :: rest).dropWhile (fun x => !isPySpace x))
  | '@' :: d :: rest =>
      if isWordChar d then some ((d :: rest).dropWhile isWordChar) else none
  | '#' :: d :: rest =>
      if isWordChar d then some ((d :: rest).dropWhile isWordChar) else none
  | _ => none

theorem patMatch_length : ∀ {l r : List Char}, patMatch l = some r → r.length < l.length := by
  intro l r h
  unfold patMatch at h
  split at h
  · split at h
    · exact absurd h (by simp)
    · cases h
      calc ((_ :: _).dropWhile _).length ≤ _ := (List.dropWhile_suffix _).length_le
        _ < _ := by simp
  · split at h
    · cases h
      calc ((_ :: _).dropWhile _).length ≤ _ := (List.dropWhile_suffix _).length_le
        _ < _ := by simp
    · exact absurd h (by simp)
  · split at h
    · cases h
      calc ((_ :: _).dropWhile _).length ≤ _ := (List.dropWhile_suffix _).length_le
        _ < _ := by simp
    · exact absurd h (by simp)
  · exact absurd h (by simp)

/-- Fuel-driven runner for the removal scan (structural recursion so that
the kernel can evaluate it; `removePats` supplies enough fuel, and the
`removePats_cons_*` lemmas recover the natural recurrence). -/
def removePatsF : Nat → List Char → List Char
  | 0, l => l
  | _ + 1, [] => []
  | fuel + 1, c :: cs =>
    match patMatch (c :: cs) with
    | some rest => removePatsF fuel rest
    | none => c :: removePatsF fuel cs

/-- `re.sub(r'http\S+|@\w+|#\w+', '', text)`: scan left to right, delete
every match, resume after the deleted match. -/
def removePats (l : List Char) : List Char := removePatsF l.length l

theorem removePatsF_irrel :
    ∀ (f₁ : Nat) (l : List Char) (f₂ : Nat), l.length ≤ f₁ → l.length ≤ f₂ →
      removePatsF f₁ l = removePatsF f₂ l := by
  intro f₁
  induction f₁ with
  | zero =>
    intro l f₂ h₁ _
    have : l = [] := List.eq_nil_of_length_eq_zero (Nat.le_zero.mp h₁)
    subst this
    cases f₂ <;> rfl
  | succ f ih =>
    intro l f₂ h₁ h₂
    cases l with
    | nil => cases f₂ <;> rfl
    | cons c cs =>
      cases f₂ with
      | zero => simp at h₂
      | succ f' =>
        simp only [removePatsF]
        cases hp : patMatch (c :: cs) with
        | some rest =>
          have hlen := patMatch_length hp
          simp only [List.length_cons] at h₁ h₂ hlen
          exact ih rest f' (by omega) (by omega)
        | none =>
          simp only [List.length_cons] at h₁ h₂
          rw [ih cs f' (by omega) (by omega)]

theorem removePats_nil : removePats [] = [] := rfl

theorem removePats_cons_match {c : Char} {cs rest : List Char}
    (h : patMatch (c :: cs) = some rest) :
    removePats (c :: cs) = removePats rest := by
  have hlen := patMatch_length h
  simp only [removePats, List.length_cons, removePatsF, h]
  exact removePatsF_irrel _ _ _ (by simp at hlen ⊢; omega) le_rfl

theorem removePats_cons_nomatch {c : Char} {cs : List Char}
    (h : patMatch (c :: cs) = none) :
    removePats (c :: cs) = c :: removePats cs := by
  simp only [removePats, List.length_cons, removePatsF, h]

/-- `re.sub(r'[^\w\s\dÀ-ſ]', ' ', text)`. -/
def charCleanse (l : List Char) : List Char :=
  l.map (fun c => if keptChar c then c else ' ')

/-- Fuel-driven runner for `str.split()` (structural so the kernel can
evaluate it; `splitWs` supplies enough fuel). -/
def splitWsF : Nat → List Char → List (List Char)
  | 0, _ => []
  | _ + 1, [] => []
  | fuel + 1, c :: cs =>
    if isPySpace c then splitWsF fuel cs
    else ((c :: cs).takeWhile (fun x => !isPySpace x)) ::
         splitWsF fuel ((c :: cs).dropWhile (fun x => !isPySpace x))

/-- Python `str.split()`: split on whitespace runs, dropping empty pieces. -/
def splitWs (l : List Char) : List (List Char) := splitWsF l.length l

theorem splitWsF_irrel :
    ∀ (f₁ : Nat) (l : List Char) (f₂ : Nat), l.length ≤ f₁ → l.length ≤ f₂ →
      splitWsF f₁ l = splitWsF f₂ l := by
  intro f₁
  induction f₁ with
  | zero =>
    intro l f₂ h₁ _
    have : l = [] := List.eq_nil_of_length_eq_zero (Nat.le_zero.mp h₁)
    subst this
    cases f₂ <;> rfl
  | succ f ih =>
    intro l f₂ h₁ h₂
    cases l with
    | nil => cases f₂ <;> rfl
    | cons c cs =>
      cases f₂ with
      | zero => simp at h₂
      | succ f' =>
        simp only [splitWsF]
        by_cases hc : isPySpace c
        · simp only [hc, if_true]
          simp only [List.length_cons] at h₁ h₂
          exact ih cs f' (by omega) (by omega)
        · rw [if_neg (by simp [hc]), if_neg (by simp [hc])]
          have hdrop : ((c :: cs).dropWhile (fun x => !isPySpace x)).length ≤ cs.length := by
            rw [List.dropWhile_cons, if_pos (by simp [hc])]
            exact (List.dropWhile_suffix _).length_le
          simp only [List.length_cons] at h₁ h₂
          rw [ih _ f' (by omega) (by omega)]

theorem splitWs_nil : splitWs [] = [] := rfl

theorem splitWs_cons_space {c : Char} {cs : List Char} (h : isPySpace c = true) :
    splitWs (c :: cs) = splitWs cs := by
  simp only [splitWs, List.length_cons, splitWsF, h, if_true]

theorem splitWs_cons_nonspace {c : Char} {cs : List Char} (h : isPySpace c = false) :
    splitWs (c :: cs) =
      ((c :: cs).takeWhile (fun x => !isPySpace x)) ::
        splitWs ((c :: cs).dropWhile (fun x => !isPySpace x)) := by
  have hdrop : ((c :: cs).dropWhile (fun x => !isPySpace x)).length ≤ cs.length := by
    rw [List.dropWhile_cons, if_pos (by simp [h])]
    exact (List.dropWhile_suffix _).length_le
  simp only [splitWs, List.length_cons, splitWsF, h, Bool.false_eq_true, if_false]
  rw [splitWsF_irrel _ _ _ (by omega) le_rfl]

end VigilanceHub


namespace VigilanceHub

/-! ### Structural facts about `clean_text`, used for the idempotence claim -/

/-- `' '.join(ws)`. -/
def joinSpace : List (List Char) → List Char
  | [] => []
  | [w] => w
  | w :: v :: ws => w ++ ' ' :: joinSpace (v :: ws)

/-- `' '.join(text.split())`. -/
def collapseWs (l : List Char) : List Char := joinSpace (splitWs l)

/-- `.lower()` (full case mapping, U+0130 expanding to two characters). -/
def lowerList (l : List Char) : List Char := l.flatMap pyLowerChars

/-- `NLPProcessor.clean_text`, on character lists. -/
def cleanList (l : List Char) : List Char :=
  lowerList (collapseWs (charCleanse (removePats l)))

/-- `NLPProcessor.clean_text`. -/
def clean_text (s : String) : String := ⟨cleanList s.data⟩

theorem takeWhile_all {p : Char → Bool} :
    ∀ {l : List Char}, (∀ c ∈ l, p c = true) → l.takeWhile p = l := by
  intro l h
  induction l with
  | nil => rfl
  | cons c cs ih =>
    rw [List.takeWhile_cons, if_pos (h c (by simp))]
    rw [ih (fun d hd => h d (by simp [hd]))]

theorem dropWhile_all {p : Char → Bool} :
    ∀ {l : List Char}, (∀ c ∈ l, p c = true) → l.dropWhile p = [] := by
  intro l h
  induction l with
  | nil => rfl
  | cons c cs ih =>
    rw [List.dropWhile_cons, if_pos (h c (by simp))]
    exact ih (fun d hd => h d (by simp [hd]))

theorem takeWhile_append_all {p : Char → Bool} :
    ∀ {w x : List Char}, (∀ c ∈ w, p c = true) →
      (w ++ x).takeWhile p = w ++ x.takeWhile p := by
  intro w x h
  induction w with
  | nil => rfl
  | cons c cs ih =>
    simp only [List.cons_append, List.takeWhile_cons, if_pos (h c (by simp))]
    rw [ih (fun d hd => h d (by simp [hd]))]

theorem dropWhile_append_all {p : Char → Bool} :
    ∀ {w x : List Char}, (∀ c ∈ w, p c = true) →
      (w ++ x).dropWhile p = x.dropWhile p := by
  intro w x h
  induction w with
  | nil => rfl
  | cons c cs ih =>
    simp only [List.cons_append, List.dropWhile_cons, if_pos (h c (by simp))]
    exact ih (fun d hd => h d (by simp [hd]))

theorem splitWs_all_nonspace {w : List Char} (hne : w ≠ [])
    (h : ∀ c ∈ w, isPySpace c = false) : splitWs w = [w] := by
  cases w with
  | nil => exact absurd rfl hne
  | cons c cs =>
    rw [splitWs_cons_nonspace (h c (by simp))]
    rw [takeWhile_all (by intro d hd; simp [h d hd])]
    rw [dropWhile_all (by intro d hd; simp [h d hd])]
    rfl

theorem splitWs_word_append {w t : List Char} (hne : w ≠ [])
    (h : ∀ c ∈ w, isPySpace c = false) :
    splitWs (w ++ ' ' :: t) = w :: splitWs t := by
  cases w with
  | nil => exact absurd rfl hne
  | cons c cs =>
    have htw : ((c :: cs) ++ ' ' :: t).takeWhile (fun x => !isPySpace x) = c :: cs := by
      rw [takeWhile_append_all (by intro d hd; simp [h d hd])]
      rw [List.takeWhile_cons, if_neg (by simp [isPySpace, pySpaceNat])]
      simp
    have hdw : ((c :: cs) ++ ' ' :: t).dropWhile (fun x => !isPySpace x) = ' ' :: t := by
      rw [dropWhile_append_all (by intro d hd; simp [h d hd])]
      rw [List.dropWhile_cons, if_neg (by simp [isPySpace, pySpaceNat])]
    rw [List.cons_append]
    rw [splitWs_cons_nonspace (h c (by simp))]
    rw [List.cons_append] at htw hdw
    rw [htw, hdw, splitWs_cons_space (by simp [isPySpace, pySpaceNat])]

theorem splitWs_joinSpace :
    ∀ ws : List (List Char),
      (∀ w ∈ ws, w ≠ [] ∧ ∀ c ∈ w, isPySpace c = false) →
      splitWs (joinSpace ws) = ws := by
  intro ws
  induction ws with
  | nil => intro _; rfl
  | cons w vs ih =>
    intro h
    cases vs with
    | nil =>
      have hw := h w (by simp)
      exact splitWs_all_nonspace hw.1 hw.2
    | cons v ws' =>
      have hw := h w (by simp)
      show splitWs (w ++ ' ' :: joinSpace (v :: ws')) = _
      rw [splitWs_word_append hw.1 hw.2]
      rw [ih (fun u hu => h u (by simp [hu]))]

end VigilanceHub

namespace VigilanceHub

theorem splitWsF_words :
    ∀ (fuel : Nat) (l : List Char), ∀ w ∈ splitWsF fuel l,
      w ≠ [] ∧ (∀ c ∈ w, isPySpace c = false ∧ c ∈ l) := by
  intro fuel
  induction fuel with
  | zero => intro l w hw; simp [splitWsF] at hw
  | succ f ih =>
    intro l w hw
    cases l with
    | nil => simp [splitWsF] at hw
    | cons c cs =>
      by_cases hc : isPySpace c
      · rw [show splitWsF (f + 1) (c :: cs) = splitWsF f cs by
          simp [splitWsF, hc]] at hw
        have := ih cs w hw
        exact ⟨this.1, fun d hd => ⟨(this.2 d hd).1, by simp [(this.2 d hd).2]⟩⟩
      · rw [show splitWsF (f + 1) (c :: cs) =
            ((c :: cs).takeWhile (fun x => !isPySpace x)) ::
              splitWsF f ((c :: cs).dropWhile (fun x => !isPySpace x)) by
          simp [splitWsF, hc]] at hw
        rcases List.mem_cons.mp hw with rfl | hw'
        · constructor
          · rw [List.takeWhile_cons, if_pos (by simp [hc])]
            simp
          · intro d hd
            refine ⟨?_, (List.takeWhile_sublist _).subset hd⟩
            have := List.mem_takeWhile_imp hd
            simpa using this
        · have := ih _ w hw'
          refine ⟨this.1, fun d hd => ⟨(this.2 d hd).1, ?_⟩⟩
          exact (List.dropWhile_suffix _).sublist.subset ((this.2 d hd).2)

theorem splitWs_words (l : List Char) :
    ∀ w ∈ splitWs l, w ≠ [] ∧ (∀ c ∈ w, isPySpace c = false ∧ c ∈ l) :=
  splitWsF_words l.length l

theorem joinSpace_mem :
    ∀ (ws : List (List Char)) (c : Char), c ∈ joinSpace ws →
      (∃ w ∈ ws, c ∈ w) ∨ c = ' ' := by
  intro ws
  induction ws with
  | nil => intro c hc; simp [joinSpace] at hc
  | cons w vs ih =>
    intro c hc
    cases vs with
    | nil => exact Or.inl ⟨w, by simp, hc⟩
    | cons v ws' =>
      rcases List.mem_append.mp hc with h | h
      · exact Or.inl ⟨w, by simp, h⟩
      · rcases List.mem_cons.mp h with rfl | h'
        · exact Or.inr rfl
        · rcases ih c h' with ⟨u, hu, hcu⟩ | h''
          · exact Or.inl ⟨u, by simp [hu], hcu⟩
          · exact Or.inr h''

theorem charCleanse_kept (l : List Char) : ∀ c ∈ charCleanse l, keptChar c = true := by
  intro c hc
  rcases List.mem_map.mp hc with ⟨d, _, rfl⟩
  by_cases hd : keptChar d
  · simp [hd]
  · simp only [hd, if_false, Bool.false_eq_true]
    decide

theorem charCleanse_id {l : List Char} (h : ∀ c ∈ l, keptChar c = true) :
    charCleanse l = l := by
  induction l with
  | nil => rfl
  | cons c cs ih =>
    simp only [charCleanse, List.map_cons, if_pos (h c (by simp))]
    have := ih (fun d hd => h d (by simp [hd]))
    simp only [charCleanse] at this
    rw [this]

theorem lowerList_joinSpace :
    ∀ ws : List (List Char), lowerList (joinSpace ws) = joinSpace (ws.map lowerList) := by
  intro ws
  induction ws with
  | nil => rfl
  | cons w vs ih =>
    cases vs with
    | nil => rfl
    | cons v ws' =>
      show lowerList (w ++ ' ' :: joinSpace (v :: ws')) = _
      simp only [lowerList, List.flatMap_append, List.flatMap_cons] at ih ⊢
      rw [ih]
      have hsp : pyLowerChars ' ' = [' '] := by decide
      rw [hsp]
      rfl

theorem cleanList_eq_joinSpace (l : List Char) :
    cleanList l =
      joinSpace ((splitWs (charCleanse (removePats l))).map lowerList) := by
  simp only [cleanList, collapseWs, lowerList_joinSpace]

end VigilanceHub

namespace VigilanceHub

/-- Does the removal pattern's `http\S+` alternative match at this
position? -/
def startsHttp (l : List Char) : Bool :=
  match l with
  | 'h' :: 't' :: 't' :: 'p' :: d :: _ => !isPySpace d
  | _ => false

/-- `p` holds of some suffix of `l` (some scan position matches). -/
def anySuffix (p : List Char → Bool) : List Char → Bool
  | [] => p []
  | c :: cs => p (c :: cs) || anySuffix p cs

theorem anySuffix_false {p : List Char → Bool} :
    ∀ {l : List Char}, anySuffix p l = false → ∀ s, s <:+ l → p s = false := by
  intro l
  induction l with
  | nil =>
    intro h s hs
    rw [List.suffix_nil.mp hs]
    simpa [anySuffix] using h
  | cons c cs ih =>
    intro h s hs
    simp only [anySuffix, Bool.or_eq_false_iff] at h
    rcases List.suffix_cons_iff.mp hs with rfl | hs'
    · exact h.1
    · exact ih h.2 s hs'

theorem patMatch_some_shape {l r : List Char} (h : patMatch l = some r) :
    startsHttp l = true ∨ (∃ d rest, l = '@' :: d :: rest) ∨
      (∃ d rest, l = '#' :: d :: rest) := by
  unfold patMatch at h
  split at h
  · split at h
    · exact absurd h (by simp)
    · rename_i heads d rest hd
      left
      simp [startsHttp, hd]
  · rename_i heads d rest
    right; left; exact ⟨d, rest, rfl⟩
  · rename_i heads d rest
    right; right; exact ⟨d, rest, rfl⟩
  · exact absurd h (by simp)

/-- If no scan position of `l` matches the removal pattern, the removal
substitution leaves `l` unchanged. -/
theorem removePats_eq_self :
    ∀ {l : List Char}, (∀ s, s <:+ l → patMatch s = none) → removePats l = l := by
  intro l
  induction l with
  | nil => intro _; rfl
  | cons c cs ih =>
    intro h
    rw [removePats_cons_nomatch (h (c :: cs) (List.suffix_refl _))]
    rw [ih (fun s hs => h s (hs.trans (List.suffix_cons c cs)))]

/-- A lowering pass is the identity on a text every character of which is
fixed by the simple lowercase mapping (such a character is in particular
not İ, so its full lowercase is itself). -/
theorem lowerList_fixed {l : List Char} (h : ∀ c ∈ l, pyLower c = c) :
    lowerList l = l := by
  induction l with
  | nil => rfl
  | cons c cs ih =>
    show pyLowerChars c ++ cs.flatMap pyLowerChars = c :: cs
    rw [pyLowerChars_fixed c (h c (List.mem_cons_self _ _))]
    have := ih (fun d hd => h d (List.mem_cons_of_mem _ hd))
    simp only [lowerList] at this
    rw [this]
    rfl

theorem cleanList_lower_fixed (l : List Char) : ∀ c ∈ cleanList l, pyLower c = c := by
  intro c hc
  rw [cleanList_eq_joinSpace] at hc
  rcases joinSpace_mem _ c hc with ⟨w, hw, hcw⟩ | rfl
  · rcases List.mem_map.mp hw with ⟨w₀, _, rfl⟩
    rcases List.mem_flatMap.mp hcw with ⟨d, _, hcd⟩
    exact mem_pyLowerChars_lower_fixed d c hcd
  · decide

theorem cleanList_no_space (l : List Char) :
    ∀ w₀ ∈ splitWs (charCleanse (removePats l)),
      lowerList w₀ ≠ [] ∧ ∀ c ∈ lowerList w₀, isPySpace c = false := by
  intro w₀ hw₀
  have hwords := splitWs_words _ w₀ hw₀
  constructor
  · cases w₀ with
    | nil => exact absurd rfl hwords.1
    | cons d ds =>
      intro hcon
      have hsplit : pyLowerChars d ++ ds.flatMap pyLowerChars = [] := hcon
      exact pyLowerChars_ne_nil d (List.append_eq_nil.mp hsplit).1
  · intro c hc
    rcases List.mem_flatMap.mp hc with ⟨d, hd, hcd⟩
    rw [mem_pyLowerChars_space d c hcd]
    exact (hwords.2 d hd).1

/-- The heart of the idempotence analysis: one more pass over an already
cleaned text is the identity, provided no scan position of the cleaned
text matches the removal pattern (`@`/`#` positions can never survive the
first pass; an `http` + non-space position can, which is why it is a
hypothesis) and every character of the cleaned text is kept by the class
substitution (lower-casing İ emits a combining dot U+0307, which is
neither `\w` nor `\s` and would be replaced by a space on the next pass,
which is why this too is a hypothesis). -/
theorem cleanList_idem (x : List Char)
    (h : anySuffix startsHttp (cleanList x) = false)
    (hk : ∀ c ∈ cleanList x, keptChar c = true) :
    cleanList (cleanList x) = cleanList x := by
  set y := cleanList x with hy
  have hkept : ∀ c ∈ y, keptChar c = true := hk
  have hnopat : ∀ s, s <:+ y → patMatch s = none := by
    intro s hs
    cases hp : patMatch s with
    | none => rfl
    | some r =>
      exfalso
      rcases patMatch_some_shape hp with hhttp | ⟨d, rest, rfl⟩ | ⟨d, rest, rfl⟩
      · have := anySuffix_false h s hs
        rw [this] at hhttp
        exact Bool.false_ne_true hhttp
      · have : '@' ∈ y := hs.sublist.subset (by simp)
        have := hkept _ this
        exact absurd this (by decide)
      · have : '#' ∈ y := hs.sublist.subset (by simp)
        have := hkept _ this
        exact absurd this (by decide)
  have h1 : removePats y = y := removePats_eq_self hnopat
  have h2 : charCleanse y = y := charCleanse_id hkept
  have h3 : splitWs y = (splitWs (charCleanse (removePats x))).map lowerList := by
    conv_lhs => rw [hy, cleanList_eq_joinSpace]
    apply splitWs_joinSpace
    intro w hw
    rcases List.mem_map.mp hw with ⟨w₀, hw₀, rfl⟩
    exact cleanList_no_space x w₀ hw₀
  have h5 : lowerList y = y := lowerList_fixed (cleanList_lower_fixed x)
  calc cleanList y = lowerList (joinSpace (splitWs y)) := by
        simp only [cleanList, collapseWs, h1, h2]
    _ = lowerList (joinSpace ((splitWs (charCleanse (removePats x))).map lowerList)) := by
        rw [h3]
    _ = lowerList y := by rw [hy, cleanList_eq_joinSpace]
    _ = y := h5

end VigilanceHub

namespace VigilanceHub

/-! ### Claim C6: idempotence of the text normalizer -/

/-- C6 (counterexample): `clean_text` is not idempotent.  On `"HTTPX"` the
first pass only lower-cases (the URL pattern `http\S+` is case-sensitive
and does not match `"HTTPX"`), producing `"httpx"`; the second pass then
matches `http\S+` against `"httpx"` and deletes everything.  A second,
independent failure: on `"İ"` the first pass lower-cases İ to
"i" + U+0307 (the full case mapping), and the second pass replaces the
combining dot — neither `\w` nor `\s` — with a space that the whitespace
normalisation then drops, leaving `"i"`. -/
theorem C6_counterexample :
    (clean_text "HTTPX" = "httpx" ∧ clean_text (clean_text "HTTPX") = "" ∧
      clean_text (clean_text "HTTPX") ≠ clean_text "HTTPX") ∧
    (clean_text "İ" = ⟨['i', Char.ofNat 0x307]⟩ ∧
      clean_text (clean_text "İ") = "i" ∧
      clean_text (clean_text "İ") ≠ clean_text "İ") := by
  refine ⟨⟨by decide, by decide, by decide⟩, by decide, by decide, by decide⟩

/-- C6 (amended): `clean_text` is idempotent on every input whose cleaned
form has no scan position matching the removal alternative `http\S+`
(lower-casing can create such positions, e.g. from `"HTTPX"`; the `@\w+`
and `#\w+` alternatives can never match a cleaned text since `@` and `#`
are removed by the character-class substitution) and whose cleaned form
consists of characters the class substitution keeps (lower-casing İ emits
the combining dot U+0307, which the next pass replaces with a space). -/
theorem C6_amended (x : String)
    (h : anySuffix startsHttp (clean_text x).data = false)
    (hk : ∀ c ∈ (clean_text x).data, keptChar c = true) :
    clean_text (clean_text x) = clean_text x := by
  have hdata : (clean_text x).data = cleanList x.data := rfl
  rw [hdata] at h hk
  show (⟨cleanList (clean_text x).data⟩ : String) = clean_text x
  rw [hdata, cleanList_idem x.data h hk]
  rfl

/-- C6 witness: a concrete instantiation of `C6_amended`. -/
theorem C6_amended_witness :
    (anySuffix startsHttp (clean_text "Accident reported on Thika Road!").data = false ∧
      ∀ c ∈ (clean_text "Accident reported on Thika Road!").data, keptChar c = true) ∧
      clean_text (clean_text "Accident reported on Thika Road!") =
        clean_text "Accident reported on Thika Road!" :=
  ⟨⟨by decide, by decide⟩,
   C6_amended "Accident reported on Thika Road!" (by decide) (by decide)⟩

end VigilanceHub

namespace VigilanceHub

/-! ### `NLPProcessor.detect_keywords` (ingestion.py lines 48-63) and
`NLPProcessor.classify_incident` (lines 65-111) -/

/-- Python `str.lower()` (full case mapping, U+0130 expanding to two
characters). -/
def pyLowerStr (s : String) : String := ⟨s.data.flatMap pyLowerChars⟩

/-- Python `in` on strings: substring containment. -/
def containsSub (needle haystack : String) : Bool :=
  decide (needle.data <:+: haystack.data)

/-- A stored regex pattern as the `re` module sees it: either it compiles
(well-formed patterns are modelled as case-insensitive substring search —
the claims about this function concern only the malformed path, on which
`re.search` raises `re.error`) or it is malformed. -/
inductive RegexPat
  | valid (pat : String)
  | malformed (pat : String)
deriving DecidableEq

/-- Row of the `IncidentKeyword` reference table (models.py lines 241-258);
only the columns `detect_keywords` reads. -/
structure IncidentKeyword where
  keyword : String
  is_regex : Bool
  regex_pattern : Option RegexPat
  is_active : Bool
deriving DecidableEq

/-- The entry loop of `detect_keywords`: regex entries (with a truthy
pattern) are searched case-insensitively — raising out of the whole
function if the pattern is malformed — and all other entries fall back to
literal lowered-substring containment. -/
def detectAux (text_lower : String) : List IncidentKeyword → Except Unit (List String)
  | [] => Except.ok []
  | k :: ks =>
    match k.is_regex, k.regex_pattern with
    | true, some (RegexPat.malformed _) => Except.error ()
    | true, some (RegexPat.valid pat) =>
      match detectAux text_lower ks with
      | Except.error e => Except.error e
      | Except.ok rest =>
        Except.ok (if containsSub (pyLowerStr pat) text_lower then k.keyword :: rest else rest)
    | _, _ =>
      match detectAux text_lower ks with
      | Except.error e => Except.error e
      | Except.ok rest =>
        Except.ok (if containsSub (pyLowerStr k.keyword) text_lower then k.keyword :: rest else rest)

/-- `NLPProcessor.detect_keywords`: loop over the active keyword entries in
table order; `Except.error ()` models an uncaught `re.error` escaping the
function. -/
def detect_keywords (text : String) (table : List IncidentKeyword) :
    Except Unit (List String) :=
  detectAux (pyLowerStr text) (table.filter (fun k => k.is_active))

/-- The fixed keyword→incident-type dictionary literal of
`classify_incident`, in source order. -/
def keyword_mapping : List (String × String) :=
  [("accident", "accident"), ("ajali", "accident"), ("crash", "accident"),
   ("robbery", "crime"), ("wizi", "crime"), ("theft", "crime"),
   ("shooting", "crime"), ("risasi", "crime"),
   ("fire", "hazard"), ("moto", "hazard"),
   ("police", "police_interaction"), ("checkpoint", "checkpoint"),
   ("sos", "sos"), ("emergency", "sos")]

/-- `incident_counts[t] = incident_counts.get(t, 0) + 1` on an
insertion-ordered association list (Python dict semantics: an existing key
keeps its position, a new key is appended). -/
def bumpCount : List (String × Nat) → String → List (String × Nat)
  | [], t => [(t, 1)]
  | (k, v) :: rest, t =>
    if k = t then (k, v + 1) :: rest else (k, v) :: bumpCount rest t

/-- The tally loop of `classify_incident`: for each detected keyword, every
mapping entry whose key occurs as a substring of the lowered keyword
(`if kw in keyword.lower()`) increments that entry's incident type. -/
def incidentCounts (keywords : List String) : List (String × Nat) :=
  keywords.foldl
    (fun acc kw =>
      keyword_mapping.foldl
        (fun acc2 p =>
          if containsSub p.1 (pyLowerStr kw) then bumpCount acc2 p.2 else acc2)
        acc)
    []

/-- Python `max(items, key=lambda x: x[1])` over a nonempty list: left
fold that replaces the current best only on a strictly greater key, so
the first maximal element wins. -/
def pyMaxBySnd (first : String × Nat) (rest : List (String × Nat)) : String × Nat :=
  rest.foldl (fun best p => if p.2 > best.2 then p else best) first

/-- `NLPProcessor.classify_incident`, restricted to the incident type it
returns (the separate category lookup queries the `IncidentCategory`
table and is not modelled; no claim mentions it).  The `text` argument is
unused by the source's type computation as well. -/
def classify_incident (text : String) (keywords : List String) : String :=
  match incidentCounts keywords with
  | [] => "other"
  | c :: cs => (pyMaxBySnd c cs).1

end VigilanceHub

namespace VigilanceHub

/-- `max p.2 m` folded over the counts: the largest tally (0 when empty). -/
def maxSnd (l : List (String × Nat)) : Nat := l.foldr (fun p m => max p.2 m) 0

theorem maxSnd_cons (c : String × Nat) (l : List (String × Nat)) :
    maxSnd (c :: l) = max c.2 (maxSnd l) := rfl

theorem mem_le_maxSnd : ∀ {l : List (String × Nat)} {p : String × Nat},
    p ∈ l → p.2 ≤ maxSnd l := by
  intro l
  induction l with
  | nil => intro p hp; simp at hp
  | cons c cs ih =>
    intro p hp
    rw [maxSnd_cons]
    rcases List.mem_cons.mp hp with rfl | hp'
    · exact le_max_left _ _
    · exact le_trans (ih hp') (le_max_right _ _)

theorem pyMaxBySnd_of_le :
    ∀ (rest : List (String × Nat)) (first : String × Nat),
      (∀ p ∈ rest, p.2 ≤ first.2) → pyMaxBySnd first rest = first := by
  intro rest
  induction rest with
  | nil => intro first _; rfl
  | cons d ds ih =>
    intro first h
    have hd : ¬ d.2 > first.2 := not_lt.mpr (h d (by simp))
    show List.foldl _ (if d.2 > first.2 then d else first) ds = first
    rw [if_neg hd]
    exact ih first (fun p hp => h p (by simp [hp]))

theorem find?_cons_pos {α : Type} (p : α → Bool) (a : α) (l : List α) (h : p a = true) :
    (a :: l).find? p = some a := by
  simp [List.find?_cons, h]

theorem find?_cons_neg {α : Type} (p : α → Bool) (a : α) (l : List α) (h : p a = false) :
    (a :: l).find? p = l.find? p := by
  simp [List.find?_cons, h]

theorem pyMaxBySnd_firstMax :
    ∀ (cs : List (String × Nat)) (c : String × Nat),
      (c :: cs).find? (fun p => p.2 == maxSnd (c :: cs)) = some (pyMaxBySnd c cs) := by
  intro cs
  induction cs with
  | nil =>
    intro c
    rw [find?_cons_pos (fun p : String × Nat => p.2 == maxSnd [c]) c [] (by simp [maxSnd])]
    rfl
  | cons d ds ih =>
    intro c
    by_cases hd : d.2 > c.2
    · have hb : pyMaxBySnd c (d :: ds) = pyMaxBySnd d ds := by
        show List.foldl _ (if d.2 > c.2 then d else c) ds = _
        rw [if_pos hd]
        rfl
      have hmax : maxSnd (c :: d :: ds) = maxSnd (d :: ds) := by
        rw [maxSnd_cons, maxSnd_cons]
        omega
      have hcfalse : ((fun p : String × Nat => p.2 == maxSnd (c :: d :: ds)) c) = false := by
        simp only [beq_eq_false_iff_ne, ne_eq, hmax, maxSnd_cons]
        omega
      rw [find?_cons_neg (fun p : String × Nat => p.2 == maxSnd (c :: d :: ds)) c
        (d :: ds) hcfalse, hb]
      simp only [hmax]
      exact ih d
    · have hb : pyMaxBySnd c (d :: ds) = pyMaxBySnd c ds := by
        show List.foldl _ (if d.2 > c.2 then d else c) ds = _
        rw [if_neg hd]
        rfl
      by_cases hc : c.2 = maxSnd (c :: d :: ds)
      · rw [find?_cons_pos (fun p : String × Nat => p.2 == maxSnd (c :: d :: ds)) c
          (d :: ds) (by simp [hc])]
        rw [hb, pyMaxBySnd_of_le ds c]
        intro p hp
        have h1 : p.2 ≤ maxSnd ds := mem_le_maxSnd hp
        rw [maxSnd_cons, maxSnd_cons] at hc
        omega
      · have hdc : d.2 ≤ c.2 := not_lt.mp hd
        have hkey : c.2 < maxSnd ds ∧ maxSnd (c :: d :: ds) = maxSnd ds := by
          rw [maxSnd_cons, maxSnd_cons] at hc ⊢
          omega
        rw [find?_cons_neg (fun p : String × Nat => p.2 == maxSnd (c :: d :: ds)) c
          (d :: ds) (by simp only [beq_eq_false_iff_ne, ne_eq]; exact hc)]
        rw [find?_cons_neg (fun p : String × Nat => p.2 == maxSnd (c :: d :: ds)) d
          ds (by simp only [beq_eq_false_iff_ne, ne_eq, hkey.2]; omega)]
        have ihc := ih c
        have hmax2 : maxSnd (c :: ds) = maxSnd ds := by
          rw [maxSnd_cons]
          omega
        rw [find?_cons_neg (fun p : String × Nat => p.2 == maxSnd (c :: ds)) c
          ds (by simp only [beq_eq_false_iff_ne, ne_eq, hmax2]; omega)] at ihc
        rw [hb]
        simp only [hmax2] at ihc
        simp only [hkey.2]
        exact ihc

/-! ### Claim C5: incident classification tie-breaking -/

/-- C5 (counterexample): on detected keywords `["police", "sos"]` both
`police_interaction` and `sos` tally 1, and `classify_incident` returns
`police_interaction` — Python's `max` keeps the first maximal entry in
dict insertion order — whereas the claimed fixed priority
`sos > … > police_interaction` would return `sos`. -/
theorem C5_counterexample :
    classify_incident "x" ["police", "sos"] = "police_interaction" ∧
      incidentCounts ["police", "sos"] = [("police_interaction", 1), ("sos", 1)] ∧
      "police_interaction" ≠ "sos" :=
  ⟨by decide, by decide, by decide⟩

/-- C5 (amended): `classify_incident` tallies matches per incident type
across all detected keywords and returns the type with the highest tally,
but a tie is broken by dict insertion order — the maximal type whose first
tally increment came earliest wins (`max` keeps the first maximal item) —
not by the claimed fixed priority list; with no tally at all it returns
`"other"`. -/
theorem C5_amended (text : String) (keywords : List String) :
    classify_incident text keywords =
      (match (incidentCounts keywords).find?
          (fun p => p.2 == maxSnd (incidentCounts keywords)) with
        | some p => p.1
        | none => "other") := by
  unfold classify_incident
  cases h : incidentCounts keywords with
  | nil => rfl
  | cons c cs =>
    rw [pyMaxBySnd_firstMax cs c]

end VigilanceHub

namespace VigilanceHub

theorem detectAux_error (tl : String) :
    ∀ l : List IncidentKeyword,
      (∃ k ∈ l, k.is_regex = true ∧ ∃ p, k.regex_pattern = some (RegexPat.malformed p)) →
      detectAux tl l = Except.error () := by
  intro l
  induction l with
  | nil =>
    rintro ⟨k, hk, -⟩
    simp at hk
  | cons c cs ih =>
    rintro ⟨k, hk, hreg, p, hpat⟩
    rcases List.mem_cons.mp hk with rfl | hk'
    · show detectAux tl (k :: cs) = Except.error ()
      unfold detectAux
      rw [hreg, hpat]
    · have hrest := ih ⟨k, hk', hreg, p, hpat⟩
      show detectAux tl (c :: cs) = Except.error ()
      unfold detectAux
      rw [hrest]
      rcases hcr : c.is_regex with - | -
      · rfl
      · rcases hcp : c.regex_pattern with - | pat
        · rfl
        · rcases pat with pat | pat <;> rfl

/-! ### Claim C7: malformed regex isolation in keyword detection -/

/-- C7 (counterexample): with an active malformed-regex entry and a valid
literal entry `"accident"` in the table, `detect_keywords` on a text the
valid entry matches raises (`re.error` propagates out of the function), so
the valid entry's label is not returned — the failing entry is not
isolated.  Alone, the valid entry does match the same text. -/
theorem C7_counterexample :
    detect_keywords "accident ahead"
        [⟨"bad", true, some (RegexPat.malformed "["), true⟩,
         ⟨"accident", false, none, true⟩] = Except.error () ∧
      detect_keywords "accident ahead"
        [⟨"accident", false, none, true⟩] = Except.ok ["accident"] :=
  ⟨rfl, rfl⟩

/-- C7 (amended): there is no per-entry isolation: a malformed regex on
any active entry of the keyword table makes `detect_keywords` raise, so
the whole report's keyword detection aborts and no label of any other
valid matching entry is returned. -/
theorem C7_amended (text : String) (table : List IncidentKeyword)
    (h : ∃ k ∈ table, k.is_active = true ∧ k.is_regex = true ∧
      ∃ p, k.regex_pattern = some (RegexPat.malformed p)) :
    detect_keywords text table = Except.error () := by
  rcases h with ⟨k, hk, hact, hreg, p, hpat⟩
  unfold detect_keywords
  apply detectAux_error
  exact ⟨k, List.mem_filter.mpr ⟨hk, by simp [hact]⟩, hreg, p, hpat⟩

/-- C7 witness: a concrete instantiation of `C7_amended`. -/
theorem C7_amended_witness :
    detect_keywords "accident ahead"
        [⟨"bad", true, some (RegexPat.malformed "["), true⟩,
         ⟨"accident", false, none, true⟩] = Except.error () :=
  C7_amended "accident ahead" _
    ⟨⟨"bad", true, some (RegexPat.malformed "["), true⟩, by simp, rfl, rfl, "[", rfl⟩

end VigilanceHub

namespace VigilanceHub

/-! ### `NLPProcessor.extract_location` (ingestion.py lines 113-158) -/

/-- `[A-Za-z\s]`, the character class inside the phrase patterns. -/
def isClassChar (c : Char) : Bool :=
  (65 ≤ c.toNat && c.toNat ≤ 90) || (97 ≤ c.toNat && c.toNat ≤ 122) || isPySpace c

/-- Case-insensitive literal match (`re.IGNORECASE` compares lowered
characters): `some rest` is the input after the literal. -/
def matchLitCI : List Char → List Char → Option (List Char)
  | [], l => some l
  | _ :: _, [] => none
  | p :: ps, c :: cs => if pyLower p = pyLower c then matchLitCI ps cs else none

/-- One location phrase pattern
`<lead>\s+([A-Za-z\s]+<suffix>|<alt>|...)` from `location_patterns`.
`sets_road`/`sets_landmark` record the source's routing checks
`'road' in pattern.lower()` / `elif 'near' in pattern.lower()` evaluated
on the pattern string. -/
structure PhrasePat where
  lead : String
  suffix : String
  alts : List String
  sets_road : Bool
  sets_landmark : Bool
deriving DecidableEq

/-- Greedy-with-backtracking match of `[A-Za-z\s]+<suffix>` at the current
position: class lengths are tried from `len` down to 1; returns the total
matched length (class part plus suffix). -/
def classSuffixSearch (suffix : List Char) (l : List Char) : Nat → Option Nat
  | 0 => none
  | len + 1 =>
    match matchLitCI suffix (l.drop (len + 1)) with
    | some _ => some (len + 1 + suffix.length)
    | none => classSuffixSearch suffix l len

/-- The plain alternatives of the group, tried in pattern order. -/
def altsSearch : List String → List Char → Option Nat
  | [], _ => none
  | a :: as, l =>
    match matchLitCI a.data l with
    | some _ => some a.data.length
    | none => altsSearch as l

/-- Match the parenthesised group at the current position: the
`[A-Za-z\s]+<suffix>` branch first (regex alternation is ordered), then
the plain alternatives.  Returns the matched length. -/
def matchGroup (pat : PhrasePat) (l : List Char) : Option Nat :=
  match classSuffixSearch pat.suffix.data l ((l.takeWhile isClassChar).length) with
  | some n => some n
  | none => altsSearch pat.alts l

/-- Backtracking over the `\s+` length (greedy: `k` spaces tried from the
maximal run down to 1), then the group; returns the group's characters —
a slice of the input, so the input's capitalisation is preserved. -/
def spacesGroupSearch (pat : PhrasePat) (rest0 : List Char) : Nat → Option (List Char)
  | 0 => none
  | k + 1 =>
    match matchGroup pat (rest0.drop (k + 1)) with
    | some n => some ((rest0.drop (k + 1)).take n)
    | none => spacesGroupSearch pat rest0 k

/-- `re.findall(pattern, text, re.IGNORECASE)[0]` for a phrase pattern:
scan positions left to right, return the first full match's group. -/
def findFirstGroup (pat : PhrasePat) : List Char → Option (List Char)
  | [] => none
  | c :: cs =>
    match matchLitCI pat.lead.data (c :: cs) with
    | some rest0 =>
      (match (if (rest0.takeWhile isPySpace).length = 0 then none
              else spacesGroupSearch pat rest0 (rest0.takeWhile isPySpace).length) with
       | some g => some g
       | none => findFirstGroup pat cs)
    | none => findFirstGroup pat cs

/-- `self.location_patterns` (lines 25-30), with the per-pattern routing of
lines 152-155 evaluated on the pattern strings. -/
def location_patterns : List PhrasePat :=
  [⟨"along", "Road", ["Way", "Avenue", "Street"], true, false⟩,
   ⟨"near", "Mall", ["Market", "Hospital", "School"], false, true⟩,
   ⟨"in", "County", [], false, false⟩,
   ⟨"at", "Roundabout", ["Junction"], false, false⟩]

/-- The literal county list of `extract_location` (lines 125-134). -/
def counties : List String :=
  ["nairobi", "mombasa", "kisumu", "nakuru", "kiambu", "kakamega",
   "bungoma", "migori", "kisii", "nyamira", "laikipia", "nyeri",
   "kilifi", "kwale", "lamu", "taita taveta", "garissa", "wajir",
   "mandera", "marsabit", "isiolo", "meru", "tharaka nithi", "embu",
   "kitui", "machakos", "makueni", "nyandarua", "kirinyaga", "muranga",
   "bomet", "kericho", "narok", "kajiado", "turkana", "west pokot",
   "samburu", "trans nzoia", "uasin gishu", "elgeyo marakwet", "nandi",
   "baringo", "vihiga", "busia", "siaya", "homa bay", "nyanza"]

/-- Python `str.title()` for the ASCII range (the county literals are
ASCII): first letter of each letter run upper-cased, the rest lowered. -/
def titleAux : Bool → List Char → List Char
  | _, [] => []
  | prevAl, c :: cs =>
    if (65 ≤ c.toNat && c.toNat ≤ 90) || (97 ≤ c.toNat && c.toNat ≤ 122) then
      (if prevAl then Char.ofNat (pyLowerNat c.toNat)
       else if 97 ≤ c.toNat && c.toNat ≤ 122 then Char.ofNat (c.toNat - 32) else c) ::
        titleAux true cs
    else c :: titleAux false cs

def pyTitle (s : String) : String := ⟨titleAux false s.data⟩

/-- The dictionary `extract_location` returns (lines 115-122). -/
structure LocationData where
  text : String
  county : Option String
  constituency : Option String
  ward : Option String
  road : Option String
  landmark : Option String
deriving DecidableEq

/-- The phrase-pattern loop (lines 148-156): first pattern with a match
wins; `matches[0]` is the leftmost group. -/
def firstPatResult : List PhrasePat → List Char → Option (PhrasePat × String)
  | [], _ => none
  | p :: ps, l =>
    match findFirstGroup p l with
    | some g => some (p, ⟨g⟩)
    | none => firstPatResult ps l

/-- `NLPProcessor.extract_location`.  (The `road_patterns` local of lines
143-146 is dead code in the source — it is never used.) -/
def extract_location (text : String) : LocationData :=
  let text_lower := pyLowerStr text
  let county := (counties.find? (fun c => containsSub c text_lower)).map pyTitle
  match firstPatResult location_patterns text.data with
  | some (p, g) =>
    { text := g, county := county, constituency := none, ward := none,
      road := if p.sets_road then some g else none,
      landmark := if p.sets_landmark then some g else none }
  | none =>
    { text := "", county := county, constituency := none, ward := none,
      road := none, landmark := none }

/-! ### Kernel-computable rational comparisons

Mathlib seals the `Rat` arithmetic/order operations as irreducible, so the
order comparisons the pipeline performs are modelled by cross-multiplied
integer comparisons (`den` is always positive), with bridge lemmas to the
usual order. -/

def qle (a b : ℚ) : Bool := decide (a.num * (b.den : ℤ) ≤ b.num * (a.den : ℤ))

def qlt (a b : ℚ) : Bool := decide (a.num * (b.den : ℤ) < b.num * (a.den : ℤ))

theorem qle_iff {a b : ℚ} : qle a b = true ↔ a ≤ b := by
  rw [Rat.le_def, qle, decide_eq_true_iff]

theorem qlt_iff {a b : ℚ} : qlt a b = true ↔ a < b := by
  rw [Rat.lt_def, qlt, decide_eq_true_iff]

theorem qle_false_iff {a b : ℚ} : qle a b = false ↔ b < a := by
  rw [← Bool.not_eq_true, not_iff_comm, qle_iff, not_lt]

theorem qlt_false_iff {a b : ℚ} : qlt a b = false ↔ b ≤ a := by
  rw [← Bool.not_eq_true, not_iff_comm, qlt_iff, not_le]

/-- Python `min(a, b)`. -/
def pyMin (a b : ℚ) : ℚ := if qle a b then a else b

/-- Python `max(a, b)`. -/
def pyMax (a b : ℚ) : ℚ := if qle a b then b else a

/-! ### `NLPProcessor.calculate_certainty` (lines 160-177) -/

/-- Left word boundary `\b` before a word character: start of text or a
non-word character. -/
def boundaryL : Option Char → Bool
  | none => true
  | some c => !isWordChar c

/-- Right word boundary `\b` after a word character: end of text or a
non-word character. -/
def boundaryR : List Char → Bool
  | [] => true
  | c :: _ => !isWordChar c

/-- Match `w₁\s+w₂\s+...` at the current position (the words themselves
contain no whitespace, so the maximal space run is the only option). -/
def matchWordSeq : List (List Char) → List Char → Option (List Char)
  | [], l => some l
  | [w], l => matchLitCI w l
  | w :: w₂ :: ws, l =>
    match matchLitCI w l with
    | none => none
    | some r =>
      if (r.takeWhile isPySpace).length = 0 then none
      else matchWordSeq (w₂ :: ws) (r.drop (r.takeWhile isPySpace).length)

/-- `re.search(r'\bw₁\s+w₂...\b', text, re.IGNORECASE)`: scan positions,
tracking the previous character for the left boundary. -/
def searchWordSeqAux (ws : List (List Char)) : Option Char → List Char → Bool
  | prev, l =>
    (boundaryL prev &&
      (match matchWordSeq ws l with
       | some rest => boundaryR rest
       | none => false)) ||
    (match l with
     | [] => false
     | c :: cs => searchWordSeqAux ws (some c) cs)

/-- `certainty_indicators` (lines 162-169): each indicator is an
alternation of boundary-delimited word sequences with a weight (the
source's `\bralleged\b` typo kept as is). -/
def certainty_indicators : List (List (List String) × ℚ) :=
  [([["confirmed"], ["verified"]], mkRat 3 10),
   ([["reported"], ["said"]], mkRat 1 10),
   ([["ralleged"], ["unconfirmed"]], mkRat (-2) 10),
   ([["rumour"], ["heard"]], mkRat (-3) 10),
   ([["multiple", "witnesses"]], mkRat 2 10),
   ([["police", "confirm"]], mkRat 4 10)]

/-- `NLPProcessor.calculate_certainty`: base 0.5, one weight per matching
indicator, clamped into [0, 1] at the end. -/
def calculate_certainty (text : String) : ℚ :=
  let c := certainty_indicators.foldl
    (fun acc ind =>
      if ind.1.any (fun alt => searchWordSeqAux (alt.map String.data) none text.data)
      then acc + ind.2 else acc)
    (mkRat 1 2)
  pyMax 0 (pyMin 1 c)

/-- `IncidentIngestionPipeline.calculate_recency_score` (lines 437-452). -/
def calculate_recency_score (now reported_at : ℤ) : ℚ :=
  let hours_ago : ℚ := mkRat (now - reported_at) 3600
  if qlt hours_ago 1 then 1
  else if qlt hours_ago 3 then mkRat 8 10
  else if qlt hours_ago 6 then mkRat 6 10
  else if qlt hours_ago 12 then mkRat 4 10
  else if qlt hours_ago 24 then mkRat 2 10
  else mkRat 1 10

end VigilanceHub

namespace VigilanceHub

/-! ### Data model (system_reports/models.py), restricted to the columns
the pipeline reads or writes -/

/-- `DataSource` (models.py lines 15-56). -/
structure DataSource where
  id : Nat
  name : String
  platform : String
  source_type : String
  credibility_score : ℚ
  is_active : Bool
deriving DecidableEq

/-- A PostGIS point; the planar coordinates carry whatever unit the
distance threshold uses. -/
structure GeoPoint where
  lon : ℚ
  lat : ℚ
deriving DecidableEq

/-- `AutomatedReport` (models.py lines 59-159) with the model-field
defaults of the source (`location_accuracy` defaults to `'approximate'`,
`cross_source_mentions` to 1, `confidence_level` to `'low'`, ...). -/
structure AutomatedReport where
  id : Nat
  source : Option DataSource
  source_identifier : String
  raw_content : String
  reported_at : ℤ
  processed_content : Option String := none
  detected_keywords : List String := []
  incident_type : Option String := none
  location_text : Option String := none
  county : Option String := none
  constituency : Option String := none
  ward : Option String := none
  road : Option String := none
  landmark : Option String := none
  location : Option GeoPoint := none
  address : Option String := none
  location_accuracy : String := "approximate"
  confidence_score : ℚ := 0
  confidence_level : String := "low"
  cross_source_mentions : Nat := 1
  source_reliability : ℚ := mkRat 1 2
  temporal_recency : ℚ := 1
  language_certainty : ℚ := mkRat 1 2
  status : String := "raw"
  incident : Option Nat := none
deriving DecidableEq

/-- `ReportProcessingLog` (models.py lines 268-281), the columns
`log_processing` fills. -/
structure ProcessingLog where
  report : Nat
  stage : String
  success : Bool
deriving DecidableEq

/-- `CrossSourceMatch` (models.py lines 284-295): nullable incident link
and the many-to-many member set (report ids; `add` is set insertion). -/
structure CrossSourceMatch where
  id : Nat
  incident : Option Nat
  automated_reports : List Nat
  match_score : ℚ
deriving DecidableEq

/-- The persistent state the pipeline touches. -/
structure Db where
  reports : List AutomatedReport
  logs : List ProcessingLog
  cross_matches : List CrossSourceMatch
  nextReportId : Nat := 0
  nextMatchId : Nat := 0
deriving DecidableEq

/-- One fetched raw item (the dict shape produced by the fetchers). -/
structure RawItem where
  source : DataSource
  source_identifier : String
  raw_content : String
  reported_at : ℤ
deriving DecidableEq

/-! ### `AutomatedReport.calculate_confidence` (models.py lines 161-200) -/

/-- `location_scores.get(self.location_accuracy, 0.5)` with
`location_scores = {'exact': 1.0, 'approximate': 0.7, 'county': 0.3}`. -/
def location_scores_get (acc : String) : ℚ :=
  if acc = "exact" then 1
  else if acc = "approximate" then mkRat 7 10
  else if acc = "county" then mkRat 3 10
  else mkRat 1 2

/-- The total score `calculate_confidence` computes and returns: weights
0.30 / 0.25 / 0.20 / 0.15 / 0.10, mentions capped via
`min(cross_source_mentions / 5, 1.0)`. -/
def calculate_confidence (r : AutomatedReport) : ℚ :=
  let mentions_score : ℚ := pyMin (mkRat (r.cross_source_mentions : ℤ) 5) 1
  let location_score : ℚ := location_scores_get r.location_accuracy
  mkRat 3 10 * r.source_reliability + mkRat 25 100 * mentions_score +
    mkRat 2 10 * r.temporal_recency + mkRat 15 100 * r.language_certainty +
    mkRat 1 10 * location_score

/-- The side effect of `calculate_confidence` on the report row: store the
score, derive the tier (`≥0.8 → high`, `≥0.6 → medium`, else `low`), and
apply the unconditional `verified` override for official sources. -/
def applyConfidence (r : AutomatedReport) : AutomatedReport :=
  let total := calculate_confidence r
  let level :=
    if qle (mkRat 8 10) total then "high"
    else if qle (mkRat 6 10) total then "medium"
    else "low"
  let level' :=
    match r.source with
    | some s => if s.source_type = "official" then "verified" else level
    | none => level
  { r with confidence_score := total, confidence_level := level' }

end VigilanceHub

namespace VigilanceHub

/-! ### `IncidentIngestionPipeline` (ingestion.py lines 259-524) -/

/-- Planar model of the GIS lookup
`location__distance_lte=(report.location, 5000)`: squared distance
compared with the squared threshold, in the point's coordinate units. -/
def withinDist (p q : GeoPoint) (d : ℚ) : Bool :=
  qle ((p.lon - q.lon) * (p.lon - q.lon) + (p.lat - q.lat) * (p.lat - q.lat)) (d * d)

/-- `IncidentIngestionPipeline.find_similar_reports` (lines 454-469):
no anchor location → `[]`; otherwise filter the report table by distance,
a lower time bound `reported_at ≥ report.reported_at - 2h` (no upper
bound), equal incident type, status in scored/pending_review/approved,
and exclude the anchor's own row. -/
def find_similar_reports (r : AutomatedReport) (reports : List AutomatedReport) :
    List AutomatedReport :=
  match r.location with
  | none => []
  | some p =>
    reports.filter (fun c =>
      (match c.location with
       | some q => withinDist p q 5000
       | none => false) &&
      decide (c.reported_at ≥ r.reported_at - 2 * 3600) &&
      decide (c.incident_type = r.incident_type) &&
      (c.status == "scored" || c.status == "pending_review" || c.status == "approved") &&
      !(c.id == r.id))

/-- The geocoding capability (`KenyanGeocoder.geocode`, lines 186-248) is
external network I/O; it is passed in as an oracle returning
point/address/accuracy or an unresolved `none`, which is exactly the
function's contract at its boundary. -/
structure PipelineEnv where
  keyword_table : List IncidentKeyword
  geocode : String → Option (GeoPoint × String × String)

/-- `AutomatedReport.objects.create(...)` of lines 363-370: the raw row
saved before the stages run. -/
def initialRow (raw : RawItem) (rid : Nat) : AutomatedReport :=
  { id := rid, source := some raw.source, source_identifier := raw.source_identifier,
    raw_content := raw.raw_content, reported_at := raw.reported_at, status := "raw" }

/-- The `log_processing` rows appended by one successful run (lines
372-410; each stage logs `success=True` with no error). -/
def stageLogs (rid : Nat) : List ProcessingLog :=
  [⟨rid, "text_cleaning", true⟩, ⟨rid, "keyword_detection", true⟩,
   ⟨rid, "classification", true⟩, ⟨rid, "location_extraction", true⟩,
   ⟨rid, "geocoding", true⟩, ⟨rid, "confidence_scoring", true⟩]

/-- Stage 1 of `process_single_report` (lines 372-375): text cleaning. -/
def cleanedRow (raw : RawItem) (rid : Nat) : AutomatedReport :=
  { initialRow raw rid with processed_content := some (clean_text raw.raw_content) }

/-- Stage 2 (lines 377-380): the detected keywords, already computed. -/
def keywordRow (raw : RawItem) (rid : Nat) (keywords : List String) : AutomatedReport :=
  { cleanedRow raw rid with detected_keywords := keywords }

/-- Stage 3 (lines 382-387): incident classification. -/
def classifiedRow (raw : RawItem) (rid : Nat) (keywords : List String) : AutomatedReport :=
  { keywordRow raw rid keywords with
    incident_type := some (classify_incident (clean_text raw.raw_content) keywords) }

/-- Stage 4 (lines 389-397): location extraction, on the cleaned text. -/
def locatedRow (raw : RawItem) (rid : Nat) (keywords : List String) : AutomatedReport :=
  let loc := extract_location (clean_text raw.raw_content)
  { classifiedRow raw rid keywords with
    location_text := some loc.text, county := loc.county,
    constituency := loc.constituency, ward := loc.ward,
    road := loc.road, landmark := loc.landmark }

/-- Stage 5 (lines 399-407): geocoding, only when a location phrase was
extracted; an unresolved geocode leaves the row untouched. -/
def geocodedRow (env : PipelineEnv) (raw : RawItem) (rid : Nat)
    (keywords : List String) : AutomatedReport :=
  if (extract_location (clean_text raw.raw_content)).text ≠ "" then
    match env.geocode (extract_location (clean_text raw.raw_content)).text with
    | some (pt, addr, acc) =>
      { locatedRow raw rid keywords with
        location := some pt, address := some addr,
        location_accuracy := acc, status := "geocoded" }
    | none => locatedRow raw rid keywords
  else locatedRow raw rid keywords

/-- Stage 6 (lines 409-415): signal fields, `calculate_confidence`, status
`scored`. -/
def scoredRow (env : PipelineEnv) (now : ℤ) (raw : RawItem) (rid : Nat)
    (keywords : List String) : AutomatedReport :=
  { applyConfidence
      { geocodedRow env raw rid keywords with
        source_reliability := raw.source.credibility_score,
        temporal_recency := calculate_recency_score now raw.reported_at,
        language_certainty := calculate_certainty (clean_text raw.raw_content) } with
    status := "scored" }

/-- Lines 417-421: when the similarity set is non-empty, store
`cross_source_mentions = len(similar) + 1` and recompute the confidence. -/
def recountRow (r : AutomatedReport) (similar : List AutomatedReport) : AutomatedReport :=
  if similar ≠ [] then
    applyConfidence { r with cross_source_mentions := similar.length + 1 }
  else r

/-- Lines 423-425: the final status write before `report.save()`. -/
def finalizeRow (r : AutomatedReport) : AutomatedReport :=
  { r with status := "pending_review" }

/-- Stage 7 (lines 417-424) on top of the scored row: the similarity
recount and the final status.  `dbReports` is the report table as the
similarity query sees it (it already holds the raw row, which the query
excludes by id). -/
def stagedReport (env : PipelineEnv) (now : ℤ) (raw : RawItem) (rid : Nat)
    (keywords : List String) (dbReports : List AutomatedReport) : AutomatedReport :=
  finalizeRow (recountRow (scoredRow env now raw rid keywords)
    (find_similar_reports (scoredRow env now raw rid keywords) dbReports))

/-- Stages 1-7 of `process_single_report` (lines 372-424): `none` models
keyword detection raising (malformed regex), which aborts the surrounding
`transaction.atomic()`. -/
def runStages (env : PipelineEnv) (now : ℤ) (raw : RawItem) (rid : Nat)
    (dbReports : List AutomatedReport) : Option AutomatedReport :=
  match detect_keywords (clean_text raw.raw_content) env.keyword_table with
  | Except.error _ => none
  | Except.ok keywords => some (stagedReport env now raw rid keywords dbReports)

/-- `IncidentIngestionPipeline.process_single_report` (lines 351-425),
with `log_processing` (lines 427-435) inlined.  Everything runs inside
`transaction.atomic()`: a duplicate `(source, source_identifier)` returns
before creating anything, and an uncaught exception (malformed regex in
keyword detection) rolls the whole transaction back. -/
def process_single_report (env : PipelineEnv) (now : ℤ) (raw : RawItem) (db : Db) : Db :=
  if db.reports.any (fun r => r.source_identifier == raw.source_identifier &&
      r.source == some raw.source) then
    db
  else
    let rid := db.nextReportId
    let created := db.reports ++ [initialRow raw rid]
    match runStages env now raw rid created with
    | none => db
    | some r9 =>
      { db with
        reports := created.map (fun r => if r.id = rid then r9 else r),
        logs := db.logs ++ stageLogs rid,
        nextReportId := rid + 1 }

/-- The saved row produced by a non-duplicate, non-raising run of
`process_single_report`, if any. -/
def processedReport (env : PipelineEnv) (now : ℤ) (raw : RawItem) (db : Db) :
    Option AutomatedReport :=
  if db.reports.any (fun r => r.source_identifier == raw.source_identifier &&
      r.source == some raw.source) then
    none
  else
    runStages env now raw db.nextReportId (db.reports ++ [initialRow raw db.nextReportId])

/-- The scoring-window query of `find_cross_source_matches` (lines
473-476): status exactly `'scored'`, `reported_at` within the last six
hours. -/
def scoringWindow (now : ℤ) (db : Db) : List AutomatedReport :=
  db.reports.filter (fun r => r.status == "scored" &&
    decide (r.reported_at ≥ now - 6 * 3600))

/-- `automated_reports.add(...)`: many-to-many insertion is set-like. -/
def addMember (l : List Nat) (x : Nat) : List Nat := if x ∈ l then l else l ++ [x]

def addMembers (l : List Nat) (xs : List Nat) : List Nat := xs.foldl addMember l

/-- `CrossSourceMatch.objects.get_or_create(incident=inc)` followed by
`match.automated_reports.add(report, *similar)` and the score write
(lines 482-486).  Django's `get` assumes the key is unique; the model
updates the (assumed unique) row, or creates one. -/
def addToMatch (ms : List CrossSourceMatch) (nextId : Nat) (inc : Option Nat)
    (members : List Nat) (score : ℚ) : List CrossSourceMatch × Nat :=
  if ms.any (fun m => m.incident == inc) then
    (ms.map (fun m =>
      if m.incident == inc then
        { m with
          automated_reports := addMembers m.automated_reports members,
          match_score := score }
      else m), nextId)
  else
    (ms ++ [{ id := nextId, incident := inc
              automated_reports := addMembers [] members
              match_score := score }], nextId + 1)

/-- The per-report body of the `find_cross_source_matches` loop (lines
479-486). -/
def matchStep (acc : Db) (r : AutomatedReport) : Db :=
  let similar := find_similar_reports r acc.reports
  if similar ≠ [] then
    let upd := addToMatch acc.cross_matches acc.nextMatchId r.incident
      (r.id :: similar.map (fun s => s.id)) ((similar.length : ℚ) * mkRat 2 10)
    { acc with cross_matches := upd.1, nextMatchId := upd.2 }
  else acc

/-- `IncidentIngestionPipeline.find_cross_source_matches` (lines 471-486). -/
def find_cross_source_matches (now : ℤ) (db : Db) : Db :=
  (scoringWindow now db).foldl matchStep db

end VigilanceHub

namespace VigilanceHub

theorem applyConfidence_location (r : AutomatedReport) :
    (applyConfidence r).location = r.location := rfl

theorem applyConfidence_location_accuracy (r : AutomatedReport) :
    (applyConfidence r).location_accuracy = r.location_accuracy := rfl

theorem applyConfidence_location_text (r : AutomatedReport) :
    (applyConfidence r).location_text = r.location_text := rfl

theorem applyConfidence_road (r : AutomatedReport) :
    (applyConfidence r).road = r.road := rfl

theorem applyConfidence_landmark (r : AutomatedReport) :
    (applyConfidence r).landmark = r.landmark := rfl

/-- A successful `processedReport` is the staged report for the detected
keywords. -/
theorem processedReport_eq (env : PipelineEnv) (now : ℤ) (raw : RawItem) (db : Db)
    (r : AutomatedReport) (h : processedReport env now raw db = some r) :
    ∃ kws, detect_keywords (clean_text raw.raw_content) env.keyword_table =
        Except.ok kws ∧
      r = stagedReport env now raw db.nextReportId kws
        (db.reports ++ [initialRow raw db.nextReportId]) := by
  unfold processedReport at h
  split at h
  · simp at h
  · unfold runStages at h
    cases hdet : detect_keywords (clean_text raw.raw_content) env.keyword_table with
    | error e => rw [hdet] at h; simp at h
    | ok kws =>
      rw [hdet] at h
      exact ⟨kws, rfl, by simpa using h.symm⟩

end VigilanceHub

namespace VigilanceHub

end VigilanceHub

namespace VigilanceHub

/-! ### Field bookkeeping across the staged rows -/

theorem recountRow_location_text (r : AutomatedReport) (similar : List AutomatedReport) :
    (recountRow r similar).location_text = r.location_text := by
  unfold recountRow
  split
  · simp only [applyConfidence_location_text]
  · rfl

theorem recountRow_road (r : AutomatedReport) (similar : List AutomatedReport) :
    (recountRow r similar).road = r.road := by
  unfold recountRow
  split
  · simp only [applyConfidence_road]
  · rfl

theorem recountRow_landmark (r : AutomatedReport) (similar : List AutomatedReport) :
    (recountRow r similar).landmark = r.landmark := by
  unfold recountRow
  split
  · simp only [applyConfidence_landmark]
  · rfl

theorem recountRow_location (r : AutomatedReport) (similar : List AutomatedReport) :
    (recountRow r similar).location = r.location := by
  unfold recountRow
  split
  · simp only [applyConfidence_location]
  · rfl

theorem recountRow_location_accuracy (r : AutomatedReport) (similar : List AutomatedReport) :
    (recountRow r similar).location_accuracy = r.location_accuracy := by
  unfold recountRow
  split
  · simp only [applyConfidence_location_accuracy]
  · rfl

theorem finalizeRow_location_text (r : AutomatedReport) :
    (finalizeRow r).location_text = r.location_text := rfl

theorem finalizeRow_road (r : AutomatedReport) : (finalizeRow r).road = r.road := rfl

theorem finalizeRow_landmark (r : AutomatedReport) :
    (finalizeRow r).landmark = r.landmark := rfl

theorem finalizeRow_location (r : AutomatedReport) :
    (finalizeRow r).location = r.location := rfl

theorem finalizeRow_location_accuracy (r : AutomatedReport) :
    (finalizeRow r).location_accuracy = r.location_accuracy := rfl

theorem scoredRow_location_text (env : PipelineEnv) (now : ℤ) (raw : RawItem)
    (rid : Nat) (kws : List String) :
    (scoredRow env now raw rid kws).location_text =
      (geocodedRow env raw rid kws).location_text := by
  unfold scoredRow
  simp only [applyConfidence_location_text]

theorem scoredRow_road (env : PipelineEnv) (now : ℤ) (raw : RawItem)
    (rid : Nat) (kws : List String) :
    (scoredRow env now raw rid kws).road = (geocodedRow env raw rid kws).road := by
  unfold scoredRow
  simp only [applyConfidence_road]

theorem scoredRow_landmark (env : PipelineEnv) (now : ℤ) (raw : RawItem)
    (rid : Nat) (kws : List String) :
    (scoredRow env now raw rid kws).landmark = (geocodedRow env raw rid kws).landmark := by
  unfold scoredRow
  simp only [applyConfidence_landmark]

theorem scoredRow_location (env : PipelineEnv) (now : ℤ) (raw : RawItem)
    (rid : Nat) (kws : List String) :
    (scoredRow env now raw rid kws).location = (geocodedRow env raw rid kws).location := by
  unfold scoredRow
  simp only [applyConfidence_location]

theorem scoredRow_location_accuracy (env : PipelineEnv) (now : ℤ) (raw : RawItem)
    (rid : Nat) (kws : List String) :
    (scoredRow env now raw rid kws).location_accuracy =
      (geocodedRow env raw rid kws).location_accuracy := by
  unfold scoredRow
  simp only [applyConfidence_location_accuracy]

theorem stagedReport_location_text (env : PipelineEnv) (now : ℤ) (raw : RawItem)
    (rid : Nat) (kws : List String) (dbReports : List AutomatedReport) :
    (stagedReport env now raw rid kws dbReports).location_text =
      (geocodedRow env raw rid kws).location_text := by
  unfold stagedReport
  rw [finalizeRow_location_text, recountRow_location_text, scoredRow_location_text]

theorem stagedReport_road (env : PipelineEnv) (now : ℤ) (raw : RawItem)
    (rid : Nat) (kws : List String) (dbReports : List AutomatedReport) :
    (stagedReport env now raw rid kws dbReports).road =
      (geocodedRow env raw rid kws).road := by
  unfold stagedReport
  rw [finalizeRow_road, recountRow_road, scoredRow_road]

theorem stagedReport_landmark (env : PipelineEnv) (now : ℤ) (raw : RawItem)
    (rid : Nat) (kws : List String) (dbReports : List AutomatedReport) :
    (stagedReport env now raw rid kws dbReports).landmark =
      (geocodedRow env raw rid kws).landmark := by
  unfold stagedReport
  rw [finalizeRow_landmark, recountRow_landmark, scoredRow_landmark]

theorem stagedReport_location (env : PipelineEnv) (now : ℤ) (raw : RawItem)
    (rid : Nat) (kws : List String) (dbReports : List AutomatedReport) :
    (stagedReport env now raw rid kws dbReports).location =
      (geocodedRow env raw rid kws).location := by
  unfold stagedReport
  rw [finalizeRow_location, recountRow_location, scoredRow_location]

theorem stagedReport_location_accuracy (env : PipelineEnv) (now : ℤ) (raw : RawItem)
    (rid : Nat) (kws : List String) (dbReports : List AutomatedReport) :
    (stagedReport env now raw rid kws dbReports).location_accuracy =
      (geocodedRow env raw rid kws).location_accuracy := by
  unfold stagedReport
  rw [finalizeRow_location_accuracy, recountRow_location_accuracy,
    scoredRow_location_accuracy]

theorem stagedReport_status (env : PipelineEnv) (now : ℤ) (raw : RawItem)
    (rid : Nat) (kws : List String) (dbReports : List AutomatedReport) :
    (stagedReport env now raw rid kws dbReports).status = "pending_review" := by
  unfold stagedReport
  rfl

theorem locatedRow_location_text (raw : RawItem) (rid : Nat) (kws : List String) :
    (locatedRow raw rid kws).location_text =
      some (extract_location (clean_text raw.raw_content)).text := rfl

theorem locatedRow_road (raw : RawItem) (rid : Nat) (kws : List String) :
    (locatedRow raw rid kws).road =
      (extract_location (clean_text raw.raw_content)).road := rfl

theorem locatedRow_landmark (raw : RawItem) (rid : Nat) (kws : List String) :
    (locatedRow raw rid kws).landmark =
      (extract_location (clean_text raw.raw_content)).landmark := rfl

theorem locatedRow_location (raw : RawItem) (rid : Nat) (kws : List String) :
    (locatedRow raw rid kws).location = none := rfl

theorem locatedRow_location_accuracy (raw : RawItem) (rid : Nat) (kws : List String) :
    (locatedRow raw rid kws).location_accuracy = "approximate" := rfl

theorem geocodedRow_location_text (env : PipelineEnv) (raw : RawItem)
    (rid : Nat) (kws : List String) :
    (geocodedRow env raw rid kws).location_text =
      some (extract_location (clean_text raw.raw_content)).text := by
  unfold geocodedRow
  split
  · cases env.geocode (extract_location (clean_text raw.raw_content)).text with
    | some res => obtain ⟨pt, addr, acc⟩ := res; rfl
    | none => rfl
  · rfl

theorem geocodedRow_road (env : PipelineEnv) (raw : RawItem)
    (rid : Nat) (kws : List String) :
    (geocodedRow env raw rid kws).road =
      (extract_location (clean_text raw.raw_content)).road := by
  unfold geocodedRow
  split
  · cases env.geocode (extract_location (clean_text raw.raw_content)).text with
    | some res => obtain ⟨pt, addr, acc⟩ := res; rfl
    | none => rfl
  · rfl

theorem geocodedRow_landmark (env : PipelineEnv) (raw : RawItem)
    (rid : Nat) (kws : List String) :
    (geocodedRow env raw rid kws).landmark =
      (extract_location (clean_text raw.raw_content)).landmark := by
  unfold geocodedRow
  split
  · cases env.geocode (extract_location (clean_text raw.raw_content)).text with
    | some res => obtain ⟨pt, addr, acc⟩ := res; rfl
    | none => rfl
  · rfl

/-- A pipeline row that ends up without a resolved coordinate still holds
the model-field default accuracy `'approximate'` (geocoding either never
ran or returned unresolved, and only a successful geocode writes the
accuracy). -/
theorem geocodedRow_unresolved_accuracy (env : PipelineEnv) (raw : RawItem)
    (rid : Nat) (kws : List String)
    (h : (geocodedRow env raw rid kws).location = none) :
    (geocodedRow env raw rid kws).location_accuracy = "approximate" := by
  unfold geocodedRow at h ⊢
  split at h
  · rename_i htext
    rw [if_pos htext]
    cases hgeo : env.geocode (extract_location (clean_text raw.raw_content)).text with
    | some res =>
      obtain ⟨pt, addr, acc⟩ := res
      rw [hgeo] at h
      simp at h
    | none =>
      exact locatedRow_location_accuracy raw rid kws
  · rename_i htext
    rw [if_neg htext]
    exact locatedRow_location_accuracy raw rid kws

end VigilanceHub

namespace VigilanceHub

/-! ### Claim C1: the confidence formula and the unresolved-location score -/

/-- The confidence formula exactly as claim C1 states it: the same
weighted sum, but with `location_accuracy_score = 0.5` whenever the
report has no resolved coordinate. -/
def claimedConfidence (r : AutomatedReport) : ℚ :=
  let location_accuracy_score : ℚ :=
    match r.location with
    | none => mkRat 1 2
    | some _ =>
      if r.location_accuracy = "exact" then 1
      else if r.location_accuracy = "approximate" then mkRat 7 10
      else mkRat 3 10
  mkRat 3 10 * r.source_reliability +
    mkRat 25 100 * pyMin (mkRat (r.cross_source_mentions : ℤ) 5) 1 +
    mkRat 2 10 * r.temporal_recency + mkRat 15 100 * r.language_certainty +
    mkRat 1 10 * location_accuracy_score

/-- Concrete pipeline input used for the C1 analysis: an unlocatable text
from a social-media source of credibility 0.5, reported 30 minutes ago,
empty keyword table, geocoder returning unresolved. -/
def srcW : DataSource := ⟨0, "tw", "twitter", "social_media", mkRat 1 2, true⟩

def envW : PipelineEnv := ⟨[], fun _ => none⟩

def rawW : RawItem := ⟨srcW, "123", "accident now", -1800⟩

def emptyDb : Db := ⟨[], [], [], 0, 0⟩

/-- The report the pipeline persists for `rawW`. -/
def rW : AutomatedReport := (processedReport envW 0 rawW emptyDb).getD (initialRow rawW 0)

/-- C1 (counterexample): the pipeline report for `rawW` has no resolved
coordinate; its accuracy column holds the model default `'approximate'`,
so `calculate_confidence` scores the location component 0.7·0.1 and
returns 0.545, while the claim's formula (unresolved → 0.5) predicts
0.525. -/
theorem C1_counterexample :
    processedReport envW 0 rawW emptyDb = some rW ∧ rW.location = none ∧
      calculate_confidence rW = mkRat 109 200 ∧
      claimedConfidence rW = mkRat 21 40 ∧
      calculate_confidence rW ≠ claimedConfidence rW := by
  have h1 : calculate_confidence rW = mkRat 109 200 := by with_unfolding_all rfl
  have h2 : claimedConfidence rW = mkRat 21 40 := by with_unfolding_all rfl
  refine ⟨by with_unfolding_all rfl, by with_unfolding_all rfl, h1, h2, ?_⟩
  rw [h1, h2]
  decide

/-- C1 (amended): `calculate_confidence` returns the weighted sum
0.30·source_reliability + 0.25·min(mentions/5, 1) + 0.20·temporal_recency
+ 0.15·language_certainty + 0.10·location_accuracy_score where the
location score maps the accuracy column exact→1.0, approximate→0.7,
county→0.3 and anything else→0.5; a report whose geocoding was unresolved
(no resolved coordinate) keeps the column default `'approximate'` and so
scores 0.7 there — not 0.5. -/
theorem C1_amended :
    (∀ r : AutomatedReport,
      calculate_confidence r =
        mkRat 3 10 * r.source_reliability +
        mkRat 25 100 * pyMin (mkRat (r.cross_source_mentions : ℤ) 5) 1 +
        mkRat 2 10 * r.temporal_recency + mkRat 15 100 * r.language_certainty +
        mkRat 1 10 * location_scores_get r.location_accuracy) ∧
    (∀ (env : PipelineEnv) (now : ℤ) (raw : RawItem) (db : Db) (r : AutomatedReport),
      processedReport env now raw db = some r → r.location = none →
      r.location_accuracy = "approximate" ∧
        location_scores_get r.location_accuracy = mkRat 7 10) := by
  constructor
  · intro r
    rfl
  · intro env now raw db r h hloc
    obtain ⟨kws, -, rfl⟩ := processedReport_eq env now raw db r h
    rw [stagedReport_location] at hloc
    rw [stagedReport_location_accuracy, geocodedRow_unresolved_accuracy env raw _ kws hloc]
    exact ⟨rfl, rfl⟩

/-- C1 witness: `C1_amended` instantiated at the concrete pipeline run. -/
theorem C1_amended_witness :
    rW.location_accuracy = "approximate" ∧
      location_scores_get rW.location_accuracy = mkRat 7 10 :=
  C1_amended.2 envW 0 rawW emptyDb rW (by with_unfolding_all rfl)
    (by with_unfolding_all rfl)

end VigilanceHub

namespace VigilanceHub

/-! ### Claim C2: duplicate `(source, source_identifier)` ingestion is a no-op -/

/-- C2: if the database already holds a report with the raw item's
`(source, source_identifier)`, `process_single_report` returns before
creating anything: the report count is unchanged and no ProcessingLog
rows are appended (in fact the whole state is untouched). -/
theorem C2_duplicate_noop (env : PipelineEnv) (now : ℤ) (raw : RawItem) (db : Db)
    (h : ∃ r ∈ db.reports, r.source_identifier = raw.source_identifier ∧
      r.source = some raw.source) :
    (process_single_report env now raw db).reports.length = db.reports.length ∧
      (process_single_report env now raw db).logs = db.logs ∧
      process_single_report env now raw db = db := by
  obtain ⟨r, hr, hid, hsrc⟩ := h
  have hany : db.reports.any (fun c => c.source_identifier == raw.source_identifier &&
      c.source == some raw.source) = true :=
    List.any_eq_true.mpr ⟨r, hr, by simp [hid, hsrc]⟩
  unfold process_single_report
  rw [if_pos hany]
  exact ⟨rfl, rfl, rfl⟩

/-- A database already holding the report for `rawW`. -/
def dbDup : Db := process_single_report envW 0 rawW emptyDb

/-- C2 witness: re-ingesting `rawW` into a database that already holds it
changes nothing. -/
theorem C2_duplicate_noop_witness :
    (process_single_report envW 0 rawW dbDup).reports.length = dbDup.reports.length ∧
      (process_single_report envW 0 rawW dbDup).logs = dbDup.logs ∧
      process_single_report envW 0 rawW dbDup = dbDup :=
  C2_duplicate_noop envW 0 rawW dbDup
    ⟨rW, by with_unfolding_all decide, by with_unfolding_all rfl, by with_unfolding_all rfl⟩

end VigilanceHub

namespace VigilanceHub

/-! ### Claim C8: monotonicity and boundedness of the confidence score -/

theorem mentions_score_nonneg (m : Nat) :
    (0 : ℚ) ≤ pyMin (mkRat (m : ℤ) 5) 1 := by
  unfold pyMin
  split_ifs with h
  · rw [Rat.mkRat_eq_div]
    positivity
  · norm_num

theorem mentions_score_le_one (m : Nat) :
    pyMin (mkRat (m : ℤ) 5) 1 ≤ 1 := by
  unfold pyMin
  split_ifs with h
  · exact qle_iff.mp h
  · exact le_refl 1

theorem mentions_score_mono {m m' : Nat} (h : m ≤ m') :
    pyMin (mkRat (m : ℤ) 5) 1 ≤ pyMin (mkRat (m' : ℤ) 5) 1 := by
  have ha : (mkRat (m : ℤ) 5 : ℚ) ≤ mkRat (m' : ℤ) 5 := by
    rw [Rat.mkRat_eq_div, Rat.mkRat_eq_div]
    gcongr
  unfold pyMin
  split_ifs with h1 h2 h2
  · exact ha
  · exact qle_iff.mp h1
  · have hgt : (1 : ℚ) < mkRat (m : ℤ) 5 :=
      qle_false_iff.mp (eq_false_of_ne_true h1)
    linarith
  · exact le_refl 1

theorem location_score_bounds (acc : String) :
    (0 : ℚ) ≤ location_scores_get acc ∧ location_scores_get acc ≤ 1 := by
  unfold location_scores_get
  have e7 : (mkRat 7 10 : ℚ) = 7 / 10 := by rw [Rat.mkRat_eq_div]; norm_num
  have e3 : (mkRat 3 10 : ℚ) = 3 / 10 := by rw [Rat.mkRat_eq_div]; norm_num
  have e2 : (mkRat 1 2 : ℚ) = 1 / 2 := by rw [Rat.mkRat_eq_div]; norm_num
  split_ifs <;> constructor <;> norm_num [e7, e3, e2]

/-- C8: `calculate_confidence` is monotonically non-decreasing in
`cross_source_mentions` with all other columns fixed, and its value lies
in [0, 1] whenever the three rational signal columns lie in [0, 1] (the
mentions count is a natural number, and the location score is one of
1.0/0.7/0.3/0.5 whatever the accuracy column holds). -/
theorem C8_monotone_bounded :
    (∀ (r : AutomatedReport) (m m' : Nat), m ≤ m' →
      calculate_confidence { r with cross_source_mentions := m } ≤
        calculate_confidence { r with cross_source_mentions := m' }) ∧
    (∀ r : AutomatedReport,
      0 ≤ r.source_reliability → r.source_reliability ≤ 1 →
      0 ≤ r.temporal_recency → r.temporal_recency ≤ 1 →
      0 ≤ r.language_certainty → r.language_certainty ≤ 1 →
      0 ≤ calculate_confidence r ∧ calculate_confidence r ≤ 1) := by
  have e30 : (mkRat 3 10 : ℚ) = 3 / 10 := by rw [Rat.mkRat_eq_div]; norm_num
  have e25 : (mkRat 25 100 : ℚ) = 25 / 100 := by rw [Rat.mkRat_eq_div]; norm_num
  have e20 : (mkRat 2 10 : ℚ) = 2 / 10 := by rw [Rat.mkRat_eq_div]; norm_num
  have e15 : (mkRat 15 100 : ℚ) = 15 / 100 := by rw [Rat.mkRat_eq_div]; norm_num
  have e10 : (mkRat 1 10 : ℚ) = 1 / 10 := by rw [Rat.mkRat_eq_div]; norm_num
  constructor
  · intro r m m' hm
    have hmono := @mentions_score_mono m m' hm
    simp only [calculate_confidence, e30, e25, e20, e15, e10]
    have hstep : (25 : ℚ) / 100 * pyMin (mkRat (m : ℤ) 5) 1 ≤
        25 / 100 * pyMin (mkRat (m' : ℤ) 5) 1 := by
      apply mul_le_mul_of_nonneg_left hmono
      norm_num
    linarith
  · intro r h1 h2 h3 h4 h5 h6
    have hm0 := mentions_score_nonneg r.cross_source_mentions
    have hm1 := mentions_score_le_one r.cross_source_mentions
    have hl := location_score_bounds r.location_accuracy
    simp only [calculate_confidence, e30, e25, e20, e15, e10]
    constructor <;> nlinarith [hl.1, hl.2]

/-- C8 witness: `C8_monotone_bounded` at the concrete pipeline report
`rW` (whose signal columns are 0.5, 1.0 and 0.5). -/
theorem C8_monotone_bounded_witness :
    (calculate_confidence { rW with cross_source_mentions := 1 } ≤
      calculate_confidence { rW with cross_source_mentions := 2 }) ∧
      (0 ≤ calculate_confidence rW ∧ calculate_confidence rW ≤ 1) :=
  ⟨C8_monotone_bounded.1 rW 1 2 (by omega),
   C8_monotone_bounded.2 rW
     (qle_iff.mp (by with_unfolding_all rfl)) (qle_iff.mp (by with_unfolding_all rfl))
     (qle_iff.mp (by with_unfolding_all rfl)) (qle_iff.mp (by with_unfolding_all rfl))
     (qle_iff.mp (by with_unfolding_all rfl)) (qle_iff.mp (by with_unfolding_all rfl))⟩

end VigilanceHub

namespace VigilanceHub

/-! ### Claim C3: the similarity predicate -/

/-- The similarity predicate exactly as claim C3 states it: same incident
type, reported timestamps within two hours of each other in either
direction, and resolved locations (both present) within 5 km. -/
def claimedSimilar (r c : AutomatedReport) : Bool :=
  decide (r.incident_type = c.incident_type) &&
  decide (|c.reported_at - r.reported_at| ≤ 2 * 3600) &&
  (match r.location, c.location with
   | some p, some q => withinDist p q 5000
   | _, _ => false)

/-- Anchor report for the C3 counterexample: a located, scored crime
report at time 0. -/
def rC3a : AutomatedReport :=
  { id := 0, source := none, source_identifier := "a", raw_content := "x",
    reported_at := 0, incident_type := some "crime", location := some ⟨0, 0⟩,
    status := "scored" }

/-- Candidate for the C3 counterexample: same type and place, but
reported three hours later. -/
def rC3b : AutomatedReport :=
  { id := 1, source := none, source_identifier := "b", raw_content := "y",
    reported_at := 10800, incident_type := some "crime", location := some ⟨0, 0⟩,
    status := "scored" }

/-- C3 (counterexample): the code's time filter is only the lower bound
`reported_at ≥ anchor - 2h`, so a report three hours in the future still
matches, though the claimed "within 2 hours of each other" is false. -/
theorem C3_counterexample :
    find_similar_reports rC3a [rC3b] = [rC3b] ∧
      claimedSimilar rC3a rC3b = false := by
  constructor
  · with_unfolding_all rfl
  · with_unfolding_all rfl

/-- C3 (amended): `find_similar_reports` treats `c` as similar to `r`
exactly when both carry resolved locations within 5 km, `c` was reported
no more than two hours before `r` (unbounded into the future), the
incident types are equal, `c`'s status is scored/pending_review/approved,
and `c` is a different row; an anchor without a resolved location matches
nothing, and an unlocated candidate is never matched. -/
theorem C3_amended (r c : AutomatedReport) (reports : List AutomatedReport) :
    c ∈ find_similar_reports r reports ↔
      c ∈ reports ∧
        (∃ p q, r.location = some p ∧ c.location = some q ∧
          withinDist p q 5000 = true) ∧
        c.reported_at ≥ r.reported_at - 2 * 3600 ∧
        c.incident_type = r.incident_type ∧
        (c.status = "scored" ∨ c.status = "pending_review" ∨ c.status = "approved") ∧
        c.id ≠ r.id := by
  unfold find_similar_reports
  cases hr : r.location with
  | none =>
    constructor
    · intro h
      exact absurd h (List.not_mem_nil c)
    · rintro ⟨-, ⟨p, q, hp, -⟩, -⟩
      cases hp
  | some p =>
    rw [List.mem_filter]
    cases hc : c.location with
    | none =>
      constructor
      · rintro ⟨-, hpred⟩
        simp at hpred
      · rintro ⟨-, ⟨p', q', -, hq, -⟩, -⟩
        exact Option.noConfusion hq
    | some q =>
      constructor
      · rintro ⟨hmem, hpred⟩
        simp only [Bool.and_eq_true, decide_eq_true_eq, Bool.or_eq_true, beq_iff_eq,
          Bool.not_eq_true', beq_eq_false_iff_ne, ne_eq, or_assoc] at hpred
        exact ⟨hmem, ⟨p, q, rfl, rfl, hpred.1.1.1.1⟩, hpred.1.1.1.2, hpred.1.1.2,
          hpred.1.2, hpred.2⟩
      · rintro ⟨hmem, ⟨p', q', hp', hq', hw⟩, ht, hty, hst, hid⟩
        obtain rfl : p' = p := (Option.some.inj hp').symm
        obtain rfl : q' = q := (Option.some.inj hq').symm
        refine ⟨hmem, ?_⟩
        simp only [Bool.and_eq_true, decide_eq_true_eq, Bool.or_eq_true, beq_iff_eq,
          Bool.not_eq_true', beq_eq_false_iff_ne, ne_eq, or_assoc]
        exact ⟨⟨⟨⟨hw, ht⟩, hty⟩, hst⟩, hid⟩

end VigilanceHub

namespace VigilanceHub

/-! ### Claim C9: which text the location phrase patterns see -/

/-- Every character of the string is fixed by Python lower-casing (i.e.
the string carries no upper-case letter in the modelled range). -/
def allLowerFixed (s : String) : Bool := s.data.all (fun c => pyLower c == c)

theorem matchLitCI_subset :
    ∀ (p l r : List Char), matchLitCI p l = some r → ∀ x ∈ r, x ∈ l := by
  intro p
  induction p with
  | nil =>
    intro l r h x hx
    cases h
    exact hx
  | cons a ps ih =>
    intro l r h x hx
    cases l with
    | nil => cases h
    | cons c cs =>
      unfold matchLitCI at h
      split at h
      · exact List.mem_cons_of_mem c (ih cs r h x hx)
      · cases h

theorem spacesGroupSearch_subset (pat : PhrasePat) (rest0 : List Char) :
    ∀ (k : Nat) (g : List Char), spacesGroupSearch pat rest0 k = some g →
      ∀ x ∈ g, x ∈ rest0 := by
  intro k
  induction k with
  | zero =>
    intro g h
    cases h
  | succ k ih =>
    intro g h x hx
    unfold spacesGroupSearch at h
    cases hm : matchGroup pat (rest0.drop (k + 1)) with
    | some n =>
      rw [hm] at h
      cases h
      exact List.drop_subset _ _ (List.take_subset _ _ hx)
    | none =>
      rw [hm] at h
      exact ih g h x hx

theorem findFirstGroup_subset (pat : PhrasePat) :
    ∀ (l g : List Char), findFirstGroup pat l = some g → ∀ x ∈ g, x ∈ l := by
  intro l
  induction l with
  | nil =>
    intro g h
    cases h
  | cons c cs ih =>
    intro g h x hx
    unfold findFirstGroup at h
    cases hlit : matchLitCI pat.lead.data (c :: cs) with
    | none =>
      rw [hlit] at h
      exact List.mem_cons_of_mem c (ih g h x hx)
    | some rest0 =>
      rw [hlit] at h
      simp only [] at h
      cases hinner : (if (rest0.takeWhile isPySpace).length = 0 then none
          else spacesGroupSearch pat rest0 (rest0.takeWhile isPySpace).length) with
      | some g' =>
        rw [hinner] at h
        cases h
        have hg : ∀ y ∈ g, y ∈ rest0 := by
          split at hinner
          · cases hinner
          · exact spacesGroupSearch_subset pat rest0 _ g hinner
        exact matchLitCI_subset _ _ _ hlit x (hg x hx)
      | none =>
        rw [hinner] at h
        exact List.mem_cons_of_mem c (ih g h x hx)

theorem firstPatResult_subset :
    ∀ (ps : List PhrasePat) (l : List Char) (p : PhrasePat) (g : String),
      firstPatResult ps l = some (p, g) → ∀ x ∈ g.data, x ∈ l := by
  intro ps
  induction ps with
  | nil =>
    intro l p g h
    cases h
  | cons q qs ih =>
    intro l p g h x hx
    unfold firstPatResult at h
    cases hf : findFirstGroup q l with
    | some g0 =>
      rw [hf] at h
      cases h
      exact findFirstGroup_subset q l g0 hf x hx
    | none =>
      rw [hf] at h
      exact ih l p g h x hx

theorem extract_location_text_eq (x : String) :
    (extract_location x).text =
      (match firstPatResult location_patterns x.data with
       | some (_, g) => g
       | none => "") := by
  unfold extract_location
  simp only []
  cases hf : firstPatResult location_patterns x.data with
  | some pg => obtain ⟨p, g⟩ := pg; rfl
  | none => rfl

theorem extract_location_road_eq (x : String) :
    (extract_location x).road =
      (match firstPatResult location_patterns x.data with
       | some (p, g) => if p.sets_road then some g else none
       | none => none) := by
  unfold extract_location
  simp only []
  cases hf : firstPatResult location_patterns x.data with
  | some pg => obtain ⟨p, g⟩ := pg; rfl
  | none => rfl

theorem extract_location_landmark_eq (x : String) :
    (extract_location x).landmark =
      (match firstPatResult location_patterns x.data with
       | some (p, g) => if p.sets_landmark then some g else none
       | none => none) := by
  unfold extract_location
  simp only []
  cases hf : firstPatResult location_patterns x.data with
  | some pg => obtain ⟨p, g⟩ := pg; rfl
  | none => rfl

/-- On an all-lower-case input (such as the cleaned text), every field the
phrase patterns store is all lower-case too: the groups are slices of the
input. -/
theorem extract_location_lower (x : String) (hx : ∀ c ∈ x.data, pyLower c = c) :
    allLowerFixed (extract_location x).text = true ∧
    (∀ s, (extract_location x).road = some s → allLowerFixed s = true) ∧
    (∀ s, (extract_location x).landmark = some s → allLowerFixed s = true) := by
  have hfix : ∀ (p : PhrasePat) (g : String),
      firstPatResult location_patterns x.data = some (p, g) →
      allLowerFixed g = true := by
    intro p g hf
    simp only [allLowerFixed, List.all_eq_true, beq_iff_eq]
    intro c hc
    exact hx c (firstPatResult_subset _ _ _ _ hf c hc)
  refine ⟨?_, ?_, ?_⟩
  · rw [extract_location_text_eq]
    cases hf : firstPatResult location_patterns x.data with
    | some pg => obtain ⟨p, g⟩ := pg; exact hfix p g hf
    | none => rfl
  · intro s hs
    rw [extract_location_road_eq] at hs
    cases hf : firstPatResult location_patterns x.data with
    | some pg =>
      obtain ⟨p, g⟩ := pg
      rw [hf] at hs
      simp only [] at hs
      split at hs
      · cases hs
        exact hfix p _ hf
      · cases hs
    | none =>
      rw [hf] at hs
      simp only [] at hs
      exact Option.noConfusion hs
  · intro s hs
    rw [extract_location_landmark_eq] at hs
    cases hf : firstPatResult location_patterns x.data with
    | some pg =>
      obtain ⟨p, g⟩ := pg
      rw [hf] at hs
      simp only [] at hs
      split at hs
      · cases hs
        exact hfix p _ hf
      · cases hs
    | none =>
      rw [hf] at hs
      simp only [] at hs
      exact Option.noConfusion hs

end VigilanceHub

namespace VigilanceHub

/-- Concrete pipeline input whose raw text capitalises "Thika Road". -/
def rawC9 : RawItem := ⟨srcW, "124", "accident along Thika Road now", -1800⟩

/-- The report the pipeline persists for `rawC9`. -/
def rC9 : AutomatedReport := (processedReport envW 0 rawC9 emptyDb).getD (initialRow rawC9 0)

/-- C9 (counterexample): applied to the original text the `along` pattern
would capture "Thika Road" with its capitalisation, but
`process_single_report` hands `extract_location` the cleaned, lower-cased
text, so the stored road is "thika road" — the original capitalisation is
not preserved. -/
theorem C9_counterexample :
    (extract_location "accident along Thika Road now").road = some "Thika Road" ∧
      processedReport envW 0 rawC9 emptyDb = some rC9 ∧
      rC9.road = some "thika road" ∧ ("thika road" : String) ≠ "Thika Road" := by
  refine ⟨by with_unfolding_all rfl, by with_unfolding_all rfl,
    by with_unfolding_all rfl, by decide⟩

/-- C9 (amended): the ordered phrase patterns (`along <Road>`,
`near <Landmark>`, `in <County>`, `at <Junction>`) are applied to the
*cleaned, lower-cased* text, not the original: every persisted report's
location description, road and landmark equal the extraction from
`clean_text(raw_content)`, and those fields never contain an upper-case
letter (the groups are slices of the lower-cased text), so the original
capitalisation is not preserved. -/
theorem C9_amended (env : PipelineEnv) (now : ℤ) (raw : RawItem) (db : Db)
    (r : AutomatedReport) (h : processedReport env now raw db = some r) :
    r.location_text = some (extract_location (clean_text raw.raw_content)).text ∧
    r.road = (extract_location (clean_text raw.raw_content)).road ∧
    r.landmark = (extract_location (clean_text raw.raw_content)).landmark ∧
    allLowerFixed (extract_location (clean_text raw.raw_content)).text = true ∧
    (∀ s, r.road = some s → allLowerFixed s = true) ∧
    (∀ s, r.landmark = some s → allLowerFixed s = true) := by
  obtain ⟨kws, -, rfl⟩ := processedReport_eq env now raw db r h
  have hlow := extract_location_lower (clean_text raw.raw_content)
    (cleanList_lower_fixed raw.raw_content.data)
  have h1 : (stagedReport env now raw db.nextReportId kws
      (db.reports ++ [initialRow raw db.nextReportId])).location_text =
      some (extract_location (clean_text raw.raw_content)).text := by
    rw [stagedReport_location_text, geocodedRow_location_text]
  have h2 : (stagedReport env now raw db.nextReportId kws
      (db.reports ++ [initialRow raw db.nextReportId])).road =
      (extract_location (clean_text raw.raw_content)).road := by
    rw [stagedReport_road, geocodedRow_road]
  have h3 : (stagedReport env now raw db.nextReportId kws
      (db.reports ++ [initialRow raw db.nextReportId])).landmark =
      (extract_location (clean_text raw.raw_content)).landmark := by
    rw [stagedReport_landmark, geocodedRow_landmark]
  refine ⟨h1, h2, h3, hlow.1, ?_, ?_⟩
  · intro s hs
    rw [h2] at hs
    exact hlow.2.1 s hs
  · intro s hs
    rw [h3] at hs
    exact hlow.2.2 s hs

/-- C9 witness: `C9_amended` at the concrete run for `rawC9`; the stored
road is the all-lower-case "thika road". -/
theorem C9_amended_witness :
    rC9.road = (extract_location (clean_text rawC9.raw_content)).road ∧
      allLowerFixed "thika road" = true :=
  ⟨(C9_amended envW 0 rawC9 emptyDb rC9 (by with_unfolding_all rfl)).2.1,
   (C9_amended envW 0 rawC9 emptyDb rC9 (by with_unfolding_all rfl)).2.2.2.2.1
     "thika road" (by with_unfolding_all rfl)⟩

end VigilanceHub

namespace VigilanceHub

/-! ### C4: the scoring window of the batch matching step -/

def dbC4 : Db := process_single_report envW 0 rawW emptyDb

/-- C4: the claim says the batch cross-source matching step considers every
report scored within the last six hours, including reports processed to
completion earlier in the same pipeline run.  It does not: the window query
filters on status exactly `'scored'`, but `process_single_report` always
overwrites the status to `'pending_review'` before saving (line 423), so a
report processed to completion is never selected.  Concretely: processing
one fresh item (reported 30 minutes ago) into an empty database leaves a
single report whose persisted status is `'pending_review'`; the scoring
window evaluated immediately afterwards is empty, and the whole batch
matching step is a no-op. -/
theorem C4_code_divergence :
    dbC4.reports.map (fun r => r.status) = ["pending_review"] ∧
      scoringWindow 0 dbC4 = [] ∧
      find_cross_source_matches 0 dbC4 = dbC4 := by
  refine ⟨?_, ?_, ?_⟩
  · with_unfolding_all rfl
  · with_unfolding_all rfl
  · with_unfolding_all rfl

/-! ### C10: all unlinked reports funnel into the single null-incident match -/

/-- How many `CrossSourceMatch` rows have a null incident link.  Django's
`get_or_create(incident=None)` assumes this is at most one (its `get`
raises `MultipleObjectsReturned` otherwise), and the model keeps it so. -/
def nullCount (ms : List CrossSourceMatch) : Nat :=
  (ms.filter (fun m => m.incident == none)).length

/-- `x` is a member of some null-incident match row. -/
def memberOfNull (ms : List CrossSourceMatch) (x : Nat) : Prop :=
  ∃ m ∈ ms, m.incident = none ∧ x ∈ m.automated_reports

theorem addMember_mem_self (l : List Nat) (x : Nat) : x ∈ addMember l x := by
  unfold addMember
  split
  · assumption
  · exact List.mem_append_right _ (List.mem_singleton.mpr rfl)

theorem addMember_mem_mono (l : List Nat) (y x : Nat) (h : x ∈ l) :
    x ∈ addMember l y := by
  unfold addMember
  split
  · exact h
  · exact List.mem_append_left _ h

theorem addMembers_mem_mono (xs : List Nat) (x : Nat) :
    ∀ l : List Nat, x ∈ l → x ∈ addMembers l xs := by
  induction xs with
  | nil => intro l h; exact h
  | cons y ys ih => intro l h; exact ih (addMember l y) (addMember_mem_mono l y x h)

theorem addMembers_mem_of_mem (xs : List Nat) (x : Nat) :
    ∀ l : List Nat, x ∈ xs → x ∈ addMembers l xs := by
  induction xs with
  | nil => intro l h; exact absurd h (List.not_mem_nil x)
  | cons y ys ih =>
    intro l h
    rcases List.mem_cons.mp h with rfl | h'
    · exact addMembers_mem_mono ys x (addMember l x) (addMember_mem_self l x)
    · exact ih (addMember l y) h'

theorem length_filter_map (f : CrossSourceMatch → CrossSourceMatch)
    (p : CrossSourceMatch → Bool) (hf : ∀ a, p (f a) = p a) :
    ∀ l : List CrossSourceMatch, ((l.map f).filter p).length = (l.filter p).length := by
  intro l
  induction l with
  | nil => rfl
  | cons a as ih =>
    simp only [List.map_cons, List.filter_cons, hf a]
    split
    · simp only [List.length_cons, ih]
    · exact ih

theorem filter_nil_of_any_false (p : CrossSourceMatch → Bool)
    (l : List CrossSourceMatch) (h : l.any p = false) : l.filter p = [] := by
  rw [List.filter_eq_nil_iff]
  intro a ha hpa
  have htrue : l.any p = true := List.any_eq_true.mpr ⟨a, ha, hpa⟩
  rw [h] at htrue
  exact Bool.noConfusion htrue

theorem addToMatch_nullCount (ms : List CrossSourceMatch) (nid : Nat)
    (inc : Option Nat) (members : List Nat) (score : ℚ)
    (h : nullCount ms ≤ 1) :
    nullCount (addToMatch ms nid inc members score).1 ≤ 1 := by
  unfold nullCount at h ⊢
  unfold addToMatch
  split
  next hany =>
    rw [length_filter_map _ _ ?_]
    · exact h
    · intro a
      by_cases ha : (a.incident == inc) = true
      · rw [if_pos ha]
      · rw [if_neg ha]
  next hany =>
    have hf := eq_false_of_ne_true hany
    rw [List.filter_append, List.length_append]
    cases inc with
    | none =>
      rw [filter_nil_of_any_false _ ms hf, List.length_nil]
      simp only [List.filter_cons, List.filter_nil]
      split
      · simp
      · simp
    | some i =>
      have hnew : (List.filter (fun m => m.incident == none)
          [{ id := nid, incident := some i,
             automated_reports := addMembers [] members,
             match_score := score }] : List CrossSourceMatch) = [] := rfl
      rw [hnew, List.length_nil]
      omega

theorem addToMatch_mem_mono (ms : List CrossSourceMatch) (nid : Nat)
    (inc : Option Nat) (members : List Nat) (score : ℚ) (x : Nat)
    (h : memberOfNull ms x) :
    memberOfNull (addToMatch ms nid inc members score).1 x := by
  obtain ⟨m, hm, hnull, hx⟩ := h
  unfold addToMatch
  split
  · refine ⟨if (m.incident == inc) = true then
        { m with automated_reports := addMembers m.automated_reports members,
                 match_score := score } else m,
      List.mem_map_of_mem _ hm, ?_, ?_⟩
    · split
      · exact hnull
      · exact hnull
    · split
      · exact addMembers_mem_mono members x m.automated_reports hx
      · exact hx
  · exact ⟨m, List.mem_append_left _ hm, hnull, hx⟩

theorem addToMatch_mem_new (ms : List CrossSourceMatch) (nid : Nat)
    (members : List Nat) (score : ℚ) (x : Nat) (hx : x ∈ members) :
    memberOfNull (addToMatch ms nid none members score).1 x := by
  unfold addToMatch
  split
  next hany =>
    obtain ⟨m, hm, hmi⟩ := List.any_eq_true.mp hany
    refine ⟨if (m.incident == (none : Option Nat)) = true then
        { m with automated_reports := addMembers m.automated_reports members,
                 match_score := score } else m,
      List.mem_map_of_mem _ hm, ?_, ?_⟩
    · rw [if_pos hmi]
      exact eq_of_beq hmi
    · rw [if_pos hmi]
      exact addMembers_mem_of_mem members x m.automated_reports hx
  next hany =>
    exact ⟨{ id := nid, incident := none,
             automated_reports := addMembers [] members, match_score := score },
      List.mem_append_right _ (List.mem_singleton.mpr rfl), rfl,
      addMembers_mem_of_mem members x [] hx⟩

theorem matchStep_reports (acc : Db) (r : AutomatedReport) :
    (matchStep acc r).reports = acc.reports := by
  unfold matchStep
  simp only []
  split
  · rfl
  · rfl

theorem matchStep_nullCount (acc : Db) (r : AutomatedReport)
    (h : nullCount acc.cross_matches ≤ 1) :
    nullCount (matchStep acc r).cross_matches ≤ 1 := by
  unfold matchStep
  simp only []
  split
  · exact addToMatch_nullCount _ _ _ _ _ h
  · exact h

theorem matchStep_mem_mono (acc : Db) (r : AutomatedReport) (x : Nat)
    (h : memberOfNull acc.cross_matches x) :
    memberOfNull (matchStep acc r).cross_matches x := by
  unfold matchStep
  simp only []
  split
  · exact addToMatch_mem_mono _ _ _ _ _ x h
  · exact h

theorem matchStep_mem_self (acc : Db) (r : AutomatedReport)
    (hinc : r.incident = none)
    (hsim : find_similar_reports r acc.reports ≠ []) :
    memberOfNull (matchStep acc r).cross_matches r.id := by
  unfold matchStep
  simp only []
  split
  next _ =>
    rw [hinc]
    exact addToMatch_mem_new _ _ _ _ r.id (List.mem_cons_self _ _)
  next hn =>
    exact absurd hsim hn

theorem foldl_matchStep_invariant (todo : List AutomatedReport) :
    ∀ acc : Db, nullCount acc.cross_matches ≤ 1 →
      (todo.foldl matchStep acc).reports = acc.reports ∧
      nullCount (todo.foldl matchStep acc).cross_matches ≤ 1 ∧
      (∀ x, memberOfNull acc.cross_matches x →
        memberOfNull (todo.foldl matchStep acc).cross_matches x) ∧
      (∀ r ∈ todo, r.incident = none →
        find_similar_reports r acc.reports ≠ [] →
        memberOfNull (todo.foldl matchStep acc).cross_matches r.id) := by
  induction todo with
  | nil =>
    intro acc h
    exact ⟨rfl, h, fun x hx => hx, fun r hr => absurd hr (List.not_mem_nil r)⟩
  | cons r0 rest ih =>
    intro acc h
    have h' : nullCount (matchStep acc r0).cross_matches ≤ 1 :=
      matchStep_nullCount acc r0 h
    obtain ⟨ihrep, ihnull, ihmono, ihself⟩ := ih (matchStep acc r0) h'
    refine ⟨?_, ihnull, ?_, ?_⟩
    · show (rest.foldl matchStep (matchStep acc r0)).reports = acc.reports
      rw [ihrep, matchStep_reports]
    · intro x hx
      exact ihmono x (matchStep_mem_mono acc r0 x hx)
    · intro r hr hrinc hrsim
      rcases List.mem_cons.mp hr with rfl | hr'
      · exact ihmono r.id (matchStep_mem_self acc r hrinc hrsim)
      · exact ihself r hr' hrinc (by rw [matchStep_reports]; exact hrsim)

theorem null_match_unique (ms : List CrossSourceMatch)
    (h : nullCount ms ≤ 1) (m m' : CrossSourceMatch)
    (hm : m ∈ ms) (hm' : m' ∈ ms)
    (hn : m.incident = none) (hn' : m'.incident = none) : m = m' := by
  have h1 : m ∈ ms.filter (fun m => m.incident == none) :=
    List.mem_filter.mpr ⟨hm, by rw [hn]; rfl⟩
  have h2 : m' ∈ ms.filter (fun m => m.incident == none) :=
    List.mem_filter.mpr ⟨hm', by rw [hn']; rfl⟩
  unfold nullCount at h
  rcases hfe : ms.filter (fun m => m.incident == none) with _ | ⟨a, _ | ⟨b, t⟩⟩
  · rw [hfe] at h1
    exact absurd h1 (List.not_mem_nil m)
  · rw [hfe] at h1 h2
    rw [List.mem_singleton.mp h1, List.mem_singleton.mp h2]
  · rw [hfe] at h
    simp only [List.length_cons] at h
    omega

/-- C10: `get_or_create` in the batch matching loop is keyed only on the
report's incident link, which is null for every not-yet-linked report: as
long as the table holds at most one null-incident `CrossSourceMatch` row
(which Django's `get` presupposes), any two reports of the scoring window
that are unlinked and have non-empty similarity sets end up in the very
same null-incident match row, and that row is the unique null-incident
row of the final state — reports of unrelated real-world events share
one match record. -/
theorem C10_shared_null_cluster (now : ℤ) (db : Db) (r1 r2 : AutomatedReport)
    (huniq : nullCount db.cross_matches ≤ 1)
    (h1 : r1 ∈ scoringWindow now db) (h2 : r2 ∈ scoringWindow now db)
    (hinc1 : r1.incident = none) (hinc2 : r2.incident = none)
    (hsim1 : find_similar_reports r1 db.reports ≠ [])
    (hsim2 : find_similar_reports r2 db.reports ≠ []) :
    ∃ m ∈ (find_cross_source_matches now db).cross_matches,
      m.incident = none ∧ r1.id ∈ m.automated_reports ∧
      r2.id ∈ m.automated_reports ∧
      ∀ m' ∈ (find_cross_source_matches now db).cross_matches,
        m'.incident = none → m' = m := by
  obtain ⟨-, hnull, -, hself⟩ :=
    foldl_matchStep_invariant (scoringWindow now db) db huniq
  obtain ⟨m1, hm1, hn1, hx1⟩ := hself r1 h1 hinc1 hsim1
  obtain ⟨m2, hm2, hn2, hx2⟩ := hself r2 h2 hinc2 hsim2
  have hmm : m2 = m1 := null_match_unique _ hnull m2 m1 hm2 hm1 hn2 hn1
  refine ⟨m1, hm1, hn1, hx1, ?_, ?_⟩
  · rw [← hmm]
    exact hx2
  · intro m' hm' hn'
    exact null_match_unique _ hnull m' m1 hm' hm1 hn' hn1

def rM1 : AutomatedReport :=
  { id := 20, source := none, source_identifier := "m1", raw_content := "",
    reported_at := 0, incident_type := some "crime",
    location := some ⟨0, 0⟩, status := "scored" }

def rM2 : AutomatedReport :=
  { id := 21, source := none, source_identifier := "m2", raw_content := "",
    reported_at := 600, incident_type := some "crime",
    location := some ⟨0, 1⟩, status := "scored" }

def rM3 : AutomatedReport :=
  { id := 22, source := none, source_identifier := "m3", raw_content := "",
    reported_at := 0, incident_type := some "accident",
    location := some ⟨1000000, 0⟩, status := "scored" }

def rM4 : AutomatedReport :=
  { id := 23, source := none, source_identifier := "m4", raw_content := "",
    reported_at := 600, incident_type := some "accident",
    location := some ⟨1000000, 1⟩, status := "scored" }

/-- Two pairs of mutually similar scored reports; the pairs are of
different incident types and a thousand kilometres apart, so they describe
unrelated real-world events. -/
def dbM : Db := ⟨[rM1, rM2, rM3, rM4], [], [], 24, 0⟩

/-- C10 witness: in a database with two unrelated clusters (crime at the
origin, accident a thousand kilometres away), the unlinked reports `rM1`
and `rM3` land in one and the same null-incident match row. -/
theorem C10_shared_null_cluster_witness :
    ∃ m ∈ (find_cross_source_matches 0 dbM).cross_matches,
      m.incident = none ∧ rM1.id ∈ m.automated_reports ∧
      rM3.id ∈ m.automated_reports ∧
      ∀ m' ∈ (find_cross_source_matches 0 dbM).cross_matches,
        m'.incident = none → m' = m :=
  C10_shared_null_cluster 0 dbM rM1 rM3
    (by rw [show nullCount dbM.cross_matches = 0 from by with_unfolding_all rfl]
        exact Nat.zero_le 1)
    (by rw [show scoringWindow 0 dbM = [rM1, rM2, rM3, rM4] from by
          with_unfolding_all rfl]
        exact List.mem_cons_self _ _)
    (by rw [show scoringWindow 0 dbM = [rM1, rM2, rM3, rM4] from by
          with_unfolding_all rfl]
        exact List.mem_cons_of_mem _ (List.mem_cons_of_mem _
          (List.mem_cons_self _ _)))
    (by with_unfolding_all rfl)
    (by with_unfolding_all rfl)
    (by rw [show find_similar_reports rM1 dbM.reports = [rM2] from by
          with_unfolding_all rfl]
        exact List.cons_ne_nil _ _)
    (by rw [show find_similar_reports rM3 dbM.reports = [rM4] from by
          with_unfolding_all rfl]
        exact List.cons_ne_nil _ _)

end VigilanceHub
